import Mathlib

/-!
Shallow embedding of `datafusion/row/src/writer.rs` (the row-format writer of
arrow-datafusion) together with a model of its external collaborators
(`RowLayout` from `layout.rs`, and the arrow column read contract), and proofs
of the specification claims about it.

Conventions of the embedding:
* machine integers are `Nat`/`Int`; multi-byte stores go through `leBytes`,
  which reduces the value modulo `2^(8*w)` and emits little-endian bytes,
  exactly as Rust's `to_le_bytes` does on the two's-complement representation;
* `f32`/`f64` column values are carried as their IEEE bit patterns (an `Int`),
  since the writer only ever reinterprets them as little-endian bytes;
* Rust panics (assertion failures, slice-bound panics, `unwrap` on a failed
  downcast, `unimplemented!`) are modelled by `Outcome.panic`; a raw pointer
  write that leaves the buffer allocation entirely is undefined behavior and
  is modelled by `Outcome.ub`.
-/

/-- Result of running a piece of Rust code: normal return, a panic (fatal
abort), or undefined behavior (out-of-allocation raw write). -/
inductive Outcome (α : Type) where
  | ok (a : α)
  | panic (msg : String)
  | ub
deriving DecidableEq, Repr

/-- The arrow logical types the writer supports, plus `Utf8` standing in for
any unsupported type (the `_ => unimplemented!()` arm of `write_field`). -/
inductive DataType where
  | Boolean
  | UInt8
  | UInt16
  | UInt32
  | UInt64
  | Int8
  | Int16
  | Int32
  | Int64
  | Float32
  | Float64
  | Date32
  | Date64
  | Decimal128 (precision : Nat) (scale : Nat)
  | Utf8
deriving DecidableEq, Repr

/-- Whether `write_field` has a dispatch arm for this type (every arm except
the `unimplemented!` default). -/
def DataType.supported : DataType → Bool
  | .Utf8 => false
  | _ => true

/-- Whether a runtime array type downcasts successfully to `Decimal128Array`
(`as_decimal128_array` ignores precision and scale). -/
def DataType.isDecimal128 : DataType → Bool
  | .Decimal128 _ _ => true
  | _ => false

/-- One schema field: its declared logical type and nullability. -/
structure ArrowField where
  data_type : DataType
  nullable : Bool
deriving DecidableEq, Repr

/-- A schema is its ordered field list. -/
structure Schema where
  fields : List ArrowField
deriving DecidableEq, Repr

/-- Model of one arrow column: its runtime array type, the per-slot null
flags, and the per-slot stored native values (for a null slot this is the
garbage sitting in the values buffer; boolean slots store 0 or 1, floats
store IEEE bit patterns). -/
structure Column where
  ctype : DataType
  nulls : List Bool
  vals : List Int
deriving DecidableEq, Repr

/-- Placeholder column used only as the explicit default of `List.getD` in
lemma statements. -/
def dColumn : Column := { ctype := DataType.Boolean, nulls := [], vals := [] }

/-- Placeholder field used only as the explicit default of `List.getD` in
lemma statements. -/
def dField : ArrowField := { data_type := DataType.Boolean, nullable := false }

/-- Arrow's `Array::is_null(row_idx)`: the null flag of the slot (absent
validity information means non-null). -/
def Column.is_null (c : Column) (row_idx : Nat) : Bool :=
  c.nulls.getD row_idx false

/-- Arrow's typed `value(row_idx)`: reads the values buffer, panicking when
the index is outside the array (arrow's bound check). -/
def Column.valueAt (c : Column) (row_idx : Nat) : Outcome Int :=
  if h : row_idx < c.vals.length then Outcome.ok (c.vals.get ⟨row_idx, h⟩)
  else Outcome.panic "index out of bounds"

/-- Model of one arrow `RecordBatch`: its columns and row count. -/
structure RecordBatch where
  columns : List Column
  num_rows : Nat
deriving DecidableEq, Repr

/-- Fixed byte width of each supported type in the row format
(1/2/4/8/16 bytes; `Utf8` is unsupported and never reaches a width lookup). -/
def typeWidth : DataType → Nat
  | .Boolean => 1
  | .UInt8 => 1
  | .UInt16 => 2
  | .UInt32 => 4
  | .UInt64 => 8
  | .Int8 => 1
  | .Int16 => 2
  | .Int32 => 4
  | .Int64 => 8
  | .Float32 => 4
  | .Float64 => 8
  | .Date32 => 4
  | .Date64 => 8
  | .Decimal128 _ _ => 16
  | .Utf8 => 0

/-- Sum of the value widths of a field list. -/
def sumW (fs : List ArrowField) : Nat :=
  (fs.map (fun f => typeWidth f.data_type)).sum

/-- Modelled from the spec: the layout plan computed by the external
`layout.rs` collaborator (not part of the given source), per section 3 of the
specification. -/
structure RowLayout where
  null_free : Bool
  null_width : Nat
  field_offsets : List Nat
  field_count : Nat
  fixed_part_width : Nat
deriving DecidableEq, Repr

/-- Modelled from the spec: sequential per-field offset assignment starting
right after the null bitmap; returns the offsets and the total width.  The
concrete scenario of section 8 (schema `[int32]`, offsets `[0, 4, 8]`, 4-byte
rows) pins the assignment to exactly this packing. -/
def computeOffsets (start : Nat) : List ArrowField → List Nat × Nat
  | [] => ([], start)
  | f :: rest =>
    let r := computeOffsets (start + typeWidth f.data_type) rest
    (start :: r.1, r.2)

/-- Modelled from the spec: `null_free` is true iff no field of the schema is
nullable. -/
def schemaNullFree (s : Schema) : Bool :=
  s.fields.all (fun f => !f.nullable)

/-- Modelled from the spec: build the layout for a schema with the null-free
flag given explicitly; the null bitmap reserves one bit per field
(`ceil(field_count / 8)` bytes) when present and is absent when null-free. -/
def RowLayout.withNullFree (s : Schema) (nf : Bool) : RowLayout :=
  let n := s.fields.length
  let nw := if nf then 0 else (n + 7) / 8
  let r := computeOffsets nw s.fields
  { null_free := nf
    null_width := nw
    field_offsets := r.1
    field_count := n
    fixed_part_width := r.2 }

/-- Modelled from the spec: `RowLayout::new(schema)`. -/
def RowLayout.new (s : Schema) : RowLayout :=
  RowLayout.withNullFree s (schemaNullFree s)

/-- Byte at index `i` of a buffer (0 beyond the end; used only under bound
hypotheses mirroring the Rust bound checks). -/
def byteAt (l : List Nat) (i : Nat) : Nat :=
  l.getD i 0

/-- Bit `b` of a byte buffer in the arrow LSB-first bit-packed convention:
bit `b % 8` of byte `b / 8`. -/
def bitAt (l : List Nat) (b : Nat) : Bool :=
  (byteAt l (b / 8)).testBit (b % 8)

/-- Overwrite the bytes of `l` starting at offset `o` with `bs` (extra bytes
of `bs` falling beyond the end of `l` are dropped; the callers' slice-bound
guards ensure this never happens on the Rust side). -/
def writeBytes : List Nat → Nat → List Nat → List Nat
  | [], _, _ => []
  | l, _, [] => l
  | _ :: l, 0, v :: vs => v :: writeBytes l 0 vs
  | b :: l, o + 1, vs => b :: writeBytes l o vs

/-- Little-endian bytes of a natural number, `w` bytes. -/
def leBytesNat : Nat → Nat → List Nat
  | 0, _ => []
  | w + 1, n => n % 256 :: leBytesNat w (n / 256)

/-- Little-endian bytes of the `w`-byte two's-complement representation of an
integer: Rust's `to_le_bytes`. -/
def leBytes (w : Nat) (v : Int) : List Nat :=
  leBytesNat w (v.emod (2 ^ (8 * w))).toNat

/-- Set bit `k` of a byte: `byte |= 1 << k` (`set_bit_raw`). -/
def setBitInByte (b k : Nat) : Nat :=
  b ||| (1 <<< k)

/-- Clear bit `k` of a byte: `byte &= !(1 << k)` on `u8` (`unset_bit_raw`). -/
def unsetBitInByte (b k : Nat) : Nat :=
  b &&& ((1 <<< k) ^^^ 255)

/-- `RowWriter`: the reusable row buffer plus its layout (writer.rs lines
115-122). -/
structure RowWriter where
  layout : RowLayout
  data : List Nat
  row_width : Nat
deriving DecidableEq, Repr

/-- `RowWriter::new`: zero-filled buffer of `fixed_part_width` bytes. -/
def RowWriter.new (schema : Schema) : RowWriter :=
  let layout := RowLayout.new schema
  let init_capacity := layout.fixed_part_width
  { layout := layout
    data := List.replicate init_capacity 0
    row_width := init_capacity }

/-- `RowWriter::reset`: zero-fill the buffer, reset the width. -/
def RowWriter.reset (rw : RowWriter) : RowWriter :=
  { rw with
    data := List.replicate rw.data.length 0
    row_width := rw.layout.fixed_part_width }

/-- `RowWriter::null_free`. -/
def RowWriter.null_free (rw : RowWriter) : Bool :=
  rw.layout.null_free

/-- `RowWriter::get_row`: the written byte range `[0, row_width)`. -/
def RowWriter.get_row (rw : RowWriter) : List Nat :=
  rw.data.take rw.row_width

/-- Body of the `set_idx!` macro (writer.rs lines 76-96): assert the field
index (fatal), look the offset up in `field_offsets` (vector indexing panics
out of bounds), and copy the `w` little-endian bytes of the value into
`data[offset..offset+w]` (slicing panics when the range exceeds the buffer). -/
def RowWriter.set_idx (w : Nat) (rw : RowWriter) (idx : Nat) (value : Int) :
    Outcome RowWriter :=
  if idx < rw.layout.field_count then
    if idx < rw.layout.field_offsets.length then
      let offset := rw.layout.field_offsets.getD idx 0
      if offset + w ≤ rw.data.length then
        Outcome.ok { rw with data := writeBytes rw.data offset (leBytes w value) }
      else Outcome.panic "slice index out of range"
    else Outcome.panic "index out of bounds"
  else Outcome.panic "assertion failed: idx < field_count"

/-- `RowWriter::set_bool`: one byte, `u8::from(value)`. -/
def RowWriter.set_bool (rw : RowWriter) (idx : Nat) (value : Bool) :
    Outcome RowWriter :=
  rw.set_idx 1 idx (if value then 1 else 0)

/-- `RowWriter::set_u8`. -/
def RowWriter.set_u8 (rw : RowWriter) (idx : Nat) (value : Int) :
    Outcome RowWriter :=
  rw.set_idx 1 idx value

/-- `RowWriter::set_i8` (`value.to_le_bytes()[0]`). -/
def RowWriter.set_i8 (rw : RowWriter) (idx : Nat) (value : Int) :
    Outcome RowWriter :=
  rw.set_idx 1 idx value

/-- `fn_set_idx!(u16, 2)`. -/
def RowWriter.set_u16 (rw : RowWriter) (idx : Nat) (value : Int) :
    Outcome RowWriter :=
  rw.set_idx 2 idx value

/-- `fn_set_idx!(u32, 4)`. -/
def RowWriter.set_u32 (rw : RowWriter) (idx : Nat) (value : Int) :
    Outcome RowWriter :=
  rw.set_idx 4 idx value

/-- `fn_set_idx!(u64, 8)`. -/
def RowWriter.set_u64 (rw : RowWriter) (idx : Nat) (value : Int) :
    Outcome RowWriter :=
  rw.set_idx 8 idx value

/-- `fn_set_idx!(i16, 2)`. -/
def RowWriter.set_i16 (rw : RowWriter) (idx : Nat) (value : Int) :
    Outcome RowWriter :=
  rw.set_idx 2 idx value

/-- `fn_set_idx!(i32, 4)`. -/
def RowWriter.set_i32 (rw : RowWriter) (idx : Nat) (value : Int) :
    Outcome RowWriter :=
  rw.set_idx 4 idx value

/-- `fn_set_idx!(i64, 8)`. -/
def RowWriter.set_i64 (rw : RowWriter) (idx : Nat) (value : Int) :
    Outcome RowWriter :=
  rw.set_idx 8 idx value

/-- `fn_set_idx!(f32, 4)` (value is the IEEE bit pattern). -/
def RowWriter.set_f32 (rw : RowWriter) (idx : Nat) (value : Int) :
    Outcome RowWriter :=
  rw.set_idx 4 idx value

/-- `fn_set_idx!(f64, 8)` (value is the IEEE bit pattern). -/
def RowWriter.set_f64 (rw : RowWriter) (idx : Nat) (value : Int) :
    Outcome RowWriter :=
  rw.set_idx 8 idx value

/-- `RowWriter::set_date32` (`set_idx!(4, ...)`). -/
def RowWriter.set_date32 (rw : RowWriter) (idx : Nat) (value : Int) :
    Outcome RowWriter :=
  rw.set_idx 4 idx value

/-- `RowWriter::set_date64` (`set_idx!(8, ...)`). -/
def RowWriter.set_date64 (rw : RowWriter) (idx : Nat) (value : Int) :
    Outcome RowWriter :=
  rw.set_idx 8 idx value

/-- `RowWriter::set_decimal128` (`set_idx!(16, ...)`). -/
def RowWriter.set_decimal128 (rw : RowWriter) (idx : Nat) (value : Int) :
    Outcome RowWriter :=
  rw.set_idx 16 idx value

/-- `RowWriter::set_null_at` (writer.rs lines 157-166): assert the layout is
not null-free (fatal), take the `data[0..null_width]` slice (slicing panics
when `null_width` exceeds the buffer), then clear bit `idx` through the raw
pointer with no index validation; a byte index beyond the buffer allocation
is undefined behavior. -/
def RowWriter.set_null_at (rw : RowWriter) (idx : Nat) : Outcome RowWriter :=
  if rw.layout.null_free then
    Outcome.panic "Unexpected call to set_null_at on null-free row writer"
  else if rw.layout.null_width ≤ rw.data.length then
    if idx / 8 < rw.data.length then
      Outcome.ok { rw with
        data := rw.data.set (idx / 8)
          (unsetBitInByte (byteAt rw.data (idx / 8)) (idx % 8)) }
    else Outcome.ub
  else Outcome.panic "slice index out of range"

/-- `RowWriter::set_non_null_at` (writer.rs lines 168-177): as
`set_null_at`, setting the bit instead of clearing it. -/
def RowWriter.set_non_null_at (rw : RowWriter) (idx : Nat) : Outcome RowWriter :=
  if rw.layout.null_free then
    Outcome.panic "Unexpected call to set_non_null_at on null-free row writer"
  else if rw.layout.null_width ≤ rw.data.length then
    if idx / 8 < rw.data.length then
      Outcome.ok { rw with
        data := rw.data.set (idx / 8)
          (setBitInByte (byteAt rw.data (idx / 8)) (idx % 8)) }
    else Outcome.ub
  else Outcome.panic "slice index out of range"

/-- Interpretation of a stored boolean slot (arrow's bitmap read). -/
def intToBool (v : Int) : Bool :=
  if v = 0 then false else true

/-- Body of the `fn_write_field!` macro (writer.rs lines 250-262): downcast
the column to the expected array type (`unwrap` panics on mismatch), read the
value at `row_idx`, hand it to the given typed setter. -/
def fn_write_field (expected : DataType)
    (set : RowWriter → Nat → Int → Outcome RowWriter)
    (dst : RowWriter) (source : Column) (col_idx row_idx : Nat) :
    Outcome RowWriter :=
  if source.ctype = expected then
    match source.valueAt row_idx with
    | Outcome.ok v => set dst col_idx v
    | Outcome.panic m => Outcome.panic m
    | Outcome.ub => Outcome.ub
  else Outcome.panic "downcast ref failed"

/-- `write_field_bool`. -/
def write_field_bool (dst : RowWriter) (source : Column) (col_idx row_idx : Nat) :
    Outcome RowWriter :=
  fn_write_field DataType.Boolean
    (fun rw i v => rw.set_bool i (intToBool v)) dst source col_idx row_idx

/-- `write_field_u8`. -/
def write_field_u8 (dst : RowWriter) (source : Column) (col_idx row_idx : Nat) :
    Outcome RowWriter :=
  fn_write_field DataType.UInt8 RowWriter.set_u8 dst source col_idx row_idx

/-- `write_field_u16`. -/
def write_field_u16 (dst : RowWriter) (source : Column) (col_idx row_idx : Nat) :
    Outcome RowWriter :=
  fn_write_field DataType.UInt16 RowWriter.set_u16 dst source col_idx row_idx

/-- `write_field_u32`. -/
def write_field_u32 (dst : RowWriter) (source : Column) (col_idx row_idx : Nat) :
    Outcome RowWriter :=
  fn_write_field DataType.UInt32 RowWriter.set_u32 dst source col_idx row_idx

/-- `write_field_u64`. -/
def write_field_u64 (dst : RowWriter) (source : Column) (col_idx row_idx : Nat) :
    Outcome RowWriter :=
  fn_write_field DataType.UInt64 RowWriter.set_u64 dst source col_idx row_idx

/-- `write_field_i8`. -/
def write_field_i8 (dst : RowWriter) (source : Column) (col_idx row_idx : Nat) :
    Outcome RowWriter :=
  fn_write_field DataType.Int8 RowWriter.set_i8 dst source col_idx row_idx

/-- `write_field_i16`. -/
def write_field_i16 (dst : RowWriter) (source : Column) (col_idx row_idx : Nat) :
    Outcome RowWriter :=
  fn_write_field DataType.Int16 RowWriter.set_i16 dst source col_idx row_idx

/-- `write_field_i32`. -/
def write_field_i32 (dst : RowWriter) (source : Column) (col_idx row_idx : Nat) :
    Outcome RowWriter :=
  fn_write_field DataType.Int32 RowWriter.set_i32 dst source col_idx row_idx

/-- `write_field_i64`. -/
def write_field_i64 (dst : RowWriter) (source : Column) (col_idx row_idx : Nat) :
    Outcome RowWriter :=
  fn_write_field DataType.Int64 RowWriter.set_i64 dst source col_idx row_idx

/-- `write_field_f32`. -/
def write_field_f32 (dst : RowWriter) (source : Column) (col_idx row_idx : Nat) :
    Outcome RowWriter :=
  fn_write_field DataType.Float32 RowWriter.set_f32 dst source col_idx row_idx

/-- `write_field_f64`. -/
def write_field_f64 (dst : RowWriter) (source : Column) (col_idx row_idx : Nat) :
    Outcome RowWriter :=
  fn_write_field DataType.Float64 RowWriter.set_f64 dst source col_idx row_idx

/-- `write_field_date32` (writer.rs lines 276-286): `as_date32_array` and an
explicit `panic!` on its error. -/
def write_field_date32 (dst : RowWriter) (source : Column) (col_idx row_idx : Nat) :
    Outcome RowWriter :=
  if source.ctype = DataType.Date32 then
    match source.valueAt row_idx with
    | Outcome.ok v => dst.set_date32 col_idx v
    | Outcome.panic m => Outcome.panic m
    | Outcome.ub => Outcome.ub
  else Outcome.panic "as_date32_array failed"

/-- `write_field_date64` (`as_date64_array(...).unwrap()`). -/
def write_field_date64 (dst : RowWriter) (source : Column) (col_idx row_idx : Nat) :
    Outcome RowWriter :=
  if source.ctype = DataType.Date64 then
    match source.valueAt row_idx with
    | Outcome.ok v => dst.set_date64 col_idx v
    | Outcome.panic m => Outcome.panic m
    | Outcome.ub => Outcome.ub
  else Outcome.panic "as_date64_array failed"

/-- `write_field_decimal128` (`as_decimal128_array(...).unwrap()`; the
downcast ignores precision and scale). -/
def write_field_decimal128 (dst : RowWriter) (source : Column) (col_idx row_idx : Nat) :
    Outcome RowWriter :=
  if source.ctype.isDecimal128 then
    match source.valueAt row_idx with
    | Outcome.ok v => dst.set_decimal128 col_idx v
    | Outcome.panic m => Outcome.panic m
    | Outcome.ub => Outcome.ub
  else Outcome.panic "as_decimal128_array failed"

/-- `write_field` (writer.rs lines 308-333): closed dispatch on the declared
logical type; anything else is `unimplemented!`. -/
def write_field (col_idx row_idx : Nat) (col : Column) (dt : DataType)
    (row : RowWriter) : Outcome RowWriter :=
  match dt with
  | DataType.Boolean => write_field_bool row col col_idx row_idx
  | DataType.UInt8 => write_field_u8 row col col_idx row_idx
  | DataType.UInt16 => write_field_u16 row col col_idx row_idx
  | DataType.UInt32 => write_field_u32 row col col_idx row_idx
  | DataType.UInt64 => write_field_u64 row col col_idx row_idx
  | DataType.Int8 => write_field_i8 row col col_idx row_idx
  | DataType.Int16 => write_field_i16 row col col_idx row_idx
  | DataType.Int32 => write_field_i32 row col col_idx row_idx
  | DataType.Int64 => write_field_i64 row col col_idx row_idx
  | DataType.Float32 => write_field_f32 row col col_idx row_idx
  | DataType.Float64 => write_field_f64 row col col_idx row_idx
  | DataType.Date32 => write_field_date32 row col col_idx row_idx
  | DataType.Date64 => write_field_date64 row col col_idx row_idx
  | DataType.Decimal128 _ _ => write_field_decimal128 row col col_idx row_idx
  | DataType.Utf8 => Outcome.panic "not implemented"

/-- The null-free loop of `write_row`: for every (enumerated field, column)
pair, unconditionally dispatch-and-write. -/
def write_row_loop_free (row_idx : Nat) :
    List ((Nat × ArrowField) × Column) → RowWriter → Outcome RowWriter
  | [], rw => Outcome.ok rw
  | ((i, f), col) :: rest, rw =>
    match write_field i row_idx col f.data_type rw with
    | Outcome.ok rw1 => write_row_loop_free row_idx rest rw1
    | Outcome.panic m => Outcome.panic m
    | Outcome.ub => Outcome.ub

/-- The nullable loop of `write_row`: per pair, either set the non-null bit
and dispatch-and-write, or set the null bit and skip the field writer. -/
def write_row_loop_nullable (row_idx : Nat) :
    List ((Nat × ArrowField) × Column) → RowWriter → Outcome RowWriter
  | [], rw => Outcome.ok rw
  | ((i, f), col) :: rest, rw =>
    let step :=
      if ! (col.is_null row_idx) then
        match rw.set_non_null_at i with
        | Outcome.ok rw1 => write_field i row_idx col f.data_type rw1
        | Outcome.panic m => Outcome.panic m
        | Outcome.ub => Outcome.ub
      else rw.set_null_at i
    match step with
    | Outcome.ok rw1 => write_row_loop_nullable row_idx rest rw1
    | Outcome.panic m => Outcome.panic m
    | Outcome.ub => Outcome.ub

/-- `write_row` (writer.rs lines 225-248): iterate the zip of the enumerated
schema fields with the column slice, in the null-free or nullable variant,
and return the row width. -/
def write_row (row_writer : RowWriter) (row_idx : Nat) (schema : Schema)
    (columns : List Column) : Outcome (RowWriter × Nat) :=
  match (if row_writer.null_free then
          write_row_loop_free row_idx ((schema.fields.enum).zip columns) row_writer
         else
          write_row_loop_nullable row_idx ((schema.fields.enum).zip columns) row_writer) with
  | Outcome.ok rw => Outcome.ok (rw, rw.row_width)
  | Outcome.panic m => Outcome.panic m
  | Outcome.ub => Outcome.ub

/-- The loop of `write_batch_unchecked`, one recursive step per remaining
row: record the cursor, encode the row, copy `get_row` into
`output[cursor..cursor+width]` (slice bounds and the `copy_from_slice` length
equality panic when violated), advance, reset. -/
def write_batch_loop (writer : RowWriter) (output : List Nat)
    (current_offset : Nat) (schema : Schema) (columns : List Column)
    (cur_row : Nat) : Nat → Outcome (List Nat × List Nat)
  | 0 => Outcome.ok (output, [])
  | Nat.succ n =>
    match write_row writer cur_row schema columns with
    | Outcome.ok rww =>
      if current_offset + rww.2 ≤ output.length then
        if rww.1.get_row.length = rww.2 then
          match write_batch_loop rww.1.reset
              (writeBytes output current_offset rww.1.get_row)
              (current_offset + rww.2) schema columns (cur_row + 1) n with
          | Outcome.ok res => Outcome.ok (res.1, current_offset :: res.2)
          | Outcome.panic m => Outcome.panic m
          | Outcome.ub => Outcome.ub
        else Outcome.panic "copy_from_slice length mismatch"
      else Outcome.panic "slice index out of range"
    | Outcome.panic m => Outcome.panic m
    | Outcome.ub => Outcome.ub

/-- `write_batch_unchecked` (writer.rs lines 33-53): returns the final output
buffer together with the recorded per-row start offsets. -/
def write_batch_unchecked (output : List Nat) (offset : Nat)
    (batch : RecordBatch) (row_idx : Nat) (schema : Schema) :
    Outcome (List Nat × List Nat) :=
  write_batch_loop (RowWriter.new schema) output offset schema batch.columns
    row_idx (batch.num_rows - row_idx)

/-- The inner row loop of `bench_write_batch`: encode every row, record its
width, reset the writer. -/
def bench_rows (writer : RowWriter) (schema : Schema) (columns : List Column)
    (cur_row : Nat) : Nat → Outcome (RowWriter × List Nat)
  | 0 => Outcome.ok (writer, [])
  | Nat.succ n =>
    match write_row writer cur_row schema columns with
    | Outcome.ok rww =>
      match bench_rows rww.1.reset schema columns (cur_row + 1) n with
      | Outcome.ok res => Outcome.ok (res.1, rww.2 :: res.2)
      | Outcome.panic m => Outcome.panic m
      | Outcome.ub => Outcome.ub
    | Outcome.panic m => Outcome.panic m
    | Outcome.ub => Outcome.ub

/-- The outer batch loop of `bench_write_batch` over the flattened batch
sequence. -/
def bench_batches (writer : RowWriter) (schema : Schema) :
    List RecordBatch → Outcome (RowWriter × List Nat)
  | [] => Outcome.ok (writer, [])
  | b :: bs =>
    match bench_rows writer schema b.columns 0 b.num_rows with
    | Outcome.ok r1 =>
      match bench_batches r1.1 schema bs with
      | Outcome.ok r2 => Outcome.ok (r2.1, r1.2 ++ r2.2)
      | Outcome.panic m => Outcome.panic m
      | Outcome.ub => Outcome.ub
    | Outcome.panic m => Outcome.panic m
    | Outcome.ub => Outcome.ub

/-- `bench_write_batch` (writer.rs lines 56-74): drives the row encoder over
`batches.iter().flatten()` collecting the widths, and wraps them in the
(always `Ok`) `datafusion_common::Result`. -/
def bench_write_batch (batches : List (List RecordBatch)) (schema : Schema) :
    Outcome (Except String (List Nat)) :=
  match bench_batches (RowWriter.new schema) schema batches.flatten with
  | Outcome.ok r => Outcome.ok (Except.ok r.2)
  | Outcome.panic m => Outcome.panic m
  | Outcome.ub => Outcome.ub

/-! ## Byte-buffer lemmas -/

theorem byteAt_nil (i : Nat) : byteAt [] i = 0 := by
  cases i <;> rfl

theorem byteAt_cons_zero (x : Nat) (l : List Nat) : byteAt (x :: l) 0 = x := rfl

theorem byteAt_cons_succ (x : Nat) (l : List Nat) (i : Nat) :
    byteAt (x :: l) (i + 1) = byteAt l i := rfl

theorem byteAt_replicate (n i : Nat) : byteAt (List.replicate n 0) i = 0 := by
  induction n generalizing i with
  | zero => exact byteAt_nil i
  | succ n ih =>
    cases i with
    | zero => rfl
    | succ i => simpa [List.replicate, byteAt_cons_succ] using ih i

theorem byteAt_take (l : List Nat) : ∀ m j, j < m → byteAt (l.take m) j = byteAt l j := by
  induction l with
  | nil => intro m j _; simp
  | cons x l ih =>
    intro m j hj
    cases m with
    | zero => omega
    | succ m =>
      cases j with
      | zero => rfl
      | succ j => simpa [byteAt_cons_succ] using ih m j (by omega)

theorem byteAt_drop (l : List Nat) : ∀ m j, byteAt (l.drop m) j = byteAt l (m + j) := by
  induction l with
  | nil => intro m j; simp [byteAt_nil]
  | cons x l ih =>
    intro m j
    cases m with
    | zero => simp
    | succ m =>
      have : m + 1 + j = (m + j) + 1 := by omega
      simp only [List.drop_succ_cons, ih m j, this, byteAt_cons_succ]

theorem byteAt_set (l : List Nat) : ∀ p v j,
    byteAt (l.set p v) j = if p = j ∧ p < l.length then v else byteAt l j := by
  induction l with
  | nil => intro p v j; simp
  | cons x l ih =>
    intro p v j
    cases p with
    | zero =>
      cases j with
      | zero => simp [byteAt_cons_zero]
      | succ j => simp [byteAt_cons_succ]
    | succ p =>
      cases j with
      | zero => simp [byteAt_cons_zero]
      | succ j =>
        simp only [List.set_cons_succ, byteAt_cons_succ, ih p v j, List.length_cons]
        by_cases h : p = j ∧ p < l.length
        · rw [if_pos h, if_pos (by omega)]
        · rw [if_neg h, if_neg (by omega)]

theorem writeBytes_bs_nil (l : List Nat) : ∀ o, writeBytes l o [] = l := by
  induction l with
  | nil => intro o; cases o <;> rfl
  | cons x l ih =>
    intro o
    cases o with
    | zero => rfl
    | succ o => simp [writeBytes, ih]

theorem writeBytes_length (l : List Nat) : ∀ o bs, (writeBytes l o bs).length = l.length := by
  induction l with
  | nil => intro o bs; cases bs <;> cases o <;> rfl
  | cons x l ih =>
    intro o bs
    cases bs with
    | nil => rw [writeBytes_bs_nil]
    | cons v vs =>
      cases o with
      | zero => simp [writeBytes, ih]
      | succ o => simp [writeBytes, ih]

theorem byteAt_writeBytes (l : List Nat) : ∀ o bs j,
    byteAt (writeBytes l o bs) j =
      if o ≤ j ∧ j < o + bs.length ∧ j < l.length then byteAt bs (j - o)
      else byteAt l j := by
  induction l with
  | nil =>
    intro o bs j
    have h0 : writeBytes [] o bs = [] := by cases bs <;> cases o <;> rfl
    rw [h0, if_neg (by simp only [List.length_nil]; omega)]
  | cons x l ih =>
    intro o bs j
    cases bs with
    | nil =>
      rw [writeBytes_bs_nil, if_neg (by simp only [List.length_nil]; omega)]
    | cons v vs =>
      cases o with
      | zero =>
        cases j with
        | zero =>
          rw [if_pos (by simp only [List.length_cons]; omega)]
          rfl
        | succ j =>
          show byteAt (writeBytes l 0 vs) j = _
          rw [ih 0 vs j]
          by_cases h : 0 ≤ j ∧ j < 0 + vs.length ∧ j < l.length
          · rw [if_pos h, if_pos (by simp only [List.length_cons]; omega)]
            have h1 : j + 1 - 0 = (j - 0) + 1 := by omega
            rw [h1, byteAt_cons_succ]
          · rw [if_neg h, if_neg (by simp only [List.length_cons]; omega),
              byteAt_cons_succ]
      | succ o =>
        cases j with
        | zero =>
          rw [if_neg (by omega)]
          rfl
        | succ j =>
          show byteAt (writeBytes l o (v :: vs)) j = _
          rw [ih o (v :: vs) j]
          by_cases h : o ≤ j ∧ j < o + (v :: vs).length ∧ j < l.length
          · rw [if_pos h, if_pos (by simp only [List.length_cons] at h ⊢; omega)]
            have h1 : j + 1 - (o + 1) = j - o := by omega
            rw [h1]
          · rw [if_neg h, if_neg (by simp only [List.length_cons] at h ⊢; omega),
              byteAt_cons_succ]

theorem drop_set_of_lt (l : List Nat) : ∀ p v m, p < m → (l.set p v).drop m = l.drop m := by
  induction l with
  | nil => intro p v m _; simp
  | cons x l ih =>
    intro p v m hp
    cases p with
    | zero =>
      cases m with
      | zero => omega
      | succ m => simp
    | succ p =>
      cases m with
      | zero => omega
      | succ m => simpa using ih p v m (by omega)

theorem drop_writeBytes (l : List Nat) : ∀ m o bs,
    (writeBytes l (m + o) bs).drop m = writeBytes (l.drop m) o bs := by
  induction l with
  | nil =>
    intro m o bs
    have : writeBytes [] (m + o) bs = [] := by cases bs <;> cases (m + o) <;> rfl
    simp [this]
    have : writeBytes [] o bs = [] := by cases bs <;> cases o <;> rfl
    simp [this]
  | cons x l ih =>
    intro m o bs
    cases m with
    | zero =>
      simp
    | succ m =>
      cases bs with
      | nil => rw [writeBytes_bs_nil, writeBytes_bs_nil]
      | cons v vs =>
        have h1 : m + 1 + o = (m + o) + 1 := by omega
        rw [h1]
        show (x :: writeBytes l (m + o) (v :: vs)).drop (m + 1) = _
        simpa using ih m o (v :: vs)

theorem leBytesNat_length (w : Nat) : ∀ n, (leBytesNat w n).length = w := by
  induction w with
  | zero => intro n; rfl
  | succ w ih => intro n; simp [leBytesNat, ih]

theorem leBytes_length (w : Nat) (v : Int) : (leBytes w v).length = w := by
  simp [leBytes, leBytesNat_length]

/-! ## Bit-manipulation lemmas -/

theorem testBit_setBitInByte (b k j : Nat) :
    (setBitInByte b k).testBit j = (b.testBit j || decide (j = k)) := by
  simp only [setBitInByte, Nat.testBit_or, Nat.shiftLeft_eq, one_mul,
    Nat.testBit_two_pow]
  by_cases h : k = j
  · simp [h]
  · simp [h, Ne.symm h]

theorem testBit_unsetBitInByte (b k j : Nat) (hj : j < 8) :
    (unsetBitInByte b k).testBit j = (b.testBit j && ! decide (j = k)) := by
  have h255 : (255 : Nat) = 2 ^ 8 - 1 := by norm_num
  simp only [unsetBitInByte, Nat.testBit_and, Nat.testBit_xor, Nat.shiftLeft_eq,
    one_mul, Nat.testBit_two_pow, h255, Nat.testBit_two_pow_sub_one]
  by_cases h : k = j
  · simp [h, hj]
  · simp [h, Ne.symm h, hj]

theorem bitAt_replicate_zero (n b : Nat) : bitAt (List.replicate n 0) b = false := by
  simp [bitAt, byteAt_replicate]

theorem bitAt_setNonNull (data : List Nat) (idx b : Nat) (h : idx / 8 < data.length) :
    bitAt (data.set (idx / 8) (setBitInByte (byteAt data (idx / 8)) (idx % 8))) b
      = (if b = idx then true else bitAt data b) := by
  unfold bitAt
  rw [byteAt_set]
  by_cases hq : idx / 8 = b / 8 ∧ idx / 8 < data.length
  · rw [if_pos hq, testBit_setBitInByte]
    by_cases hb : b = idx
    · subst hb; simp
    · rw [if_neg hb]
      have : ¬ (b % 8 = idx % 8) := by omega
      simp [this, hq.1]
  · rw [if_neg hq]
    have hb : ¬ (b = idx) := by
      intro hc; subst hc; exact hq ⟨rfl, h⟩
    rw [if_neg hb]

theorem bitAt_setNull (data : List Nat) (idx b : Nat) (h : idx / 8 < data.length)
    (hb8 : b % 8 < 8) :
    bitAt (data.set (idx / 8) (unsetBitInByte (byteAt data (idx / 8)) (idx % 8))) b
      = (if b = idx then false else bitAt data b) := by
  unfold bitAt
  rw [byteAt_set]
  by_cases hq : idx / 8 = b / 8 ∧ idx / 8 < data.length
  · rw [if_pos hq, testBit_unsetBitInByte _ _ _ hb8]
    by_cases hb : b = idx
    · subst hb; simp
    · rw [if_neg hb]
      have : ¬ (b % 8 = idx % 8) := by omega
      simp [this, hq.1]
  · rw [if_neg hq]
    have hb : ¬ (b = idx) := by
      intro hc; subst hc; exact hq ⟨rfl, h⟩
    rw [if_neg hb]

/-! ## Layout lemmas (about the spec-modelled `RowLayout`) -/

theorem sumW_nil : sumW [] = 0 := rfl

theorem sumW_cons (f : ArrowField) (fs : List ArrowField) :
    sumW (f :: fs) = typeWidth f.data_type + sumW fs := by
  simp [sumW]

theorem computeOffsets_length (fs : List ArrowField) : ∀ s,
    (computeOffsets s fs).1.length = fs.length := by
  induction fs with
  | nil => intro s; rfl
  | cons f fs ih => intro s; simp [computeOffsets, ih]

theorem computeOffsets_snd (fs : List ArrowField) : ∀ s,
    (computeOffsets s fs).2 = s + sumW fs := by
  induction fs with
  | nil => intro s; simp [computeOffsets, sumW_nil]
  | cons f fs ih => intro s; simp [computeOffsets, ih, sumW_cons]; omega

theorem computeOffsets_getD (fs : List ArrowField) : ∀ s i, i < fs.length →
    (computeOffsets s fs).1.getD i 0 = s + sumW (fs.take i) := by
  induction fs with
  | nil => intro s i h; simp at h
  | cons f fs ih =>
    intro s i h
    cases i with
    | zero => simp [computeOffsets, sumW_nil]
    | succ i =>
      show (computeOffsets (s + typeWidth f.data_type) fs).1.getD i 0 = _
      rw [ih _ i (by simpa using h)]
      simp [sumW_cons]
      omega

theorem sumW_take_succ (fs : List ArrowField) : ∀ i, i < fs.length →
    sumW (fs.take (i + 1)) = sumW (fs.take i) + typeWidth ((fs.getD i dField).data_type) := by
  induction fs with
  | nil => intro i h; simp at h
  | cons f fs ih =>
    intro i h
    cases i with
    | zero => simp [sumW_cons, sumW_nil]
    | succ i =>
      simp only [List.take_succ_cons, sumW_cons, List.getD_cons_succ]
      rw [ih i (by simpa using h)]
      omega

theorem sumW_take_mono (fs : List ArrowField) : ∀ a b, a ≤ b →
    sumW (fs.take a) ≤ sumW (fs.take b) := by
  induction fs with
  | nil => intro a b _; simp
  | cons f fs ih =>
    intro a b hab
    cases a with
    | zero => simp [sumW_nil]
    | succ a =>
      cases b with
      | zero => omega
      | succ b =>
        simp only [List.take_succ_cons, sumW_cons]
        have := ih a b (by omega)
        omega

theorem sumW_take_le (fs : List ArrowField) : ∀ a, sumW (fs.take a) ≤ sumW fs := by
  induction fs with
  | nil => intro a; simp
  | cons f fs ih =>
    intro a
    cases a with
    | zero => simp [sumW_nil, sumW_cons]
    | succ a =>
      simp only [List.take_succ_cons, sumW_cons]
      have := ih a
      omega

/-- Collected facts about the modelled layout that the loop proofs use. -/
theorem layout_facts (S : Schema) (nf : Bool) :
    (RowLayout.withNullFree S nf).field_count = S.fields.length ∧
    (RowLayout.withNullFree S nf).field_offsets.length = S.fields.length ∧
    (RowLayout.withNullFree S nf).fixed_part_width =
      (RowLayout.withNullFree S nf).null_width + sumW S.fields := by
  refine ⟨rfl, ?_, ?_⟩
  · simp [RowLayout.withNullFree, computeOffsets_length]
  · simp [RowLayout.withNullFree, computeOffsets_snd]

theorem layout_offsets_getD (S : Schema) (nf : Bool) (i : Nat) (h : i < S.fields.length) :
    (RowLayout.withNullFree S nf).field_offsets.getD i 0 =
      (RowLayout.withNullFree S nf).null_width + sumW (S.fields.take i) := by
  simp only [RowLayout.withNullFree]
  rw [computeOffsets_getD _ _ i h]

theorem layout_slot_bound (S : Schema) (nf : Bool) (i : Nat) (h : i < S.fields.length) :
    (RowLayout.withNullFree S nf).field_offsets.getD i 0 +
      typeWidth ((S.fields.getD i dField).data_type) ≤
      (RowLayout.withNullFree S nf).fixed_part_width := by
  rw [layout_offsets_getD S nf i h, (layout_facts S nf).2.2]
  have h1 := sumW_take_succ S.fields i h
  have h2 := sumW_take_le S.fields (i + 1)
  omega

theorem layout_slot_disjoint (S : Schema) (nf : Bool) (i j : Nat)
    (hi : i < S.fields.length) (hj : j < S.fields.length) (hij : i < j) :
    (RowLayout.withNullFree S nf).field_offsets.getD i 0 +
      typeWidth ((S.fields.getD i dField).data_type) ≤
      (RowLayout.withNullFree S nf).field_offsets.getD j 0 := by
  rw [layout_offsets_getD S nf i hi, layout_offsets_getD S nf j hj]
  have h1 := sumW_take_succ S.fields i hi
  have h2 := sumW_take_mono S.fields (i + 1) j (by omega)
  omega

theorem layout_offset_ge_nw (S : Schema) (nf : Bool) (i : Nat) (h : i < S.fields.length) :
    (RowLayout.withNullFree S nf).null_width ≤
      (RowLayout.withNullFree S nf).field_offsets.getD i 0 := by
  rw [layout_offsets_getD S nf i h]
  omega

theorem layout_fc_le_bits (S : Schema) :
    S.fields.length ≤ 8 * (RowLayout.withNullFree S false).null_width := by
  show S.fields.length ≤ 8 * ((S.fields.length + 7) / 8)
  omega

theorem layout_nw_le_fixed (S : Schema) (nf : Bool) :
    (RowLayout.withNullFree S nf).null_width ≤
      (RowLayout.withNullFree S nf).fixed_part_width := by
  rw [(layout_facts S nf).2.2]
  omega

theorem RowLayout_new_eq (S : Schema) : RowLayout.new S = RowLayout.withNullFree S (schemaNullFree S) := rfl

/-! ## Characterizations of the primitive writer operations -/

theorem valueAt_ok_iff (c : Column) (r : Nat) (v : Int) :
    c.valueAt r = Outcome.ok v ↔ r < c.vals.length ∧ v = c.vals.getD r 0 := by
  unfold Column.valueAt
  split
  case isTrue h =>
    rw [List.getD_eq_get _ _ h]
    constructor
    · intro he; injection he with he; exact ⟨h, he.symm⟩
    · intro ⟨_, he⟩; rw [he]
  case isFalse h =>
    constructor
    · intro he; cases he
    · intro ⟨hr, _⟩; omega

theorem set_idx_ok_iff (rw : RowWriter) (w idx : Nat) (v : Int) (rw2 : RowWriter) :
    rw.set_idx w idx v = Outcome.ok rw2 ↔
      (idx < rw.layout.field_count ∧ idx < rw.layout.field_offsets.length ∧
       rw.layout.field_offsets.getD idx 0 + w ≤ rw.data.length ∧
       rw2 = { rw with data := (writeBytes rw.data (rw.layout.field_offsets.getD idx 0)
                 (leBytes w v)) }) := by
  unfold RowWriter.set_idx
  split
  case isTrue h1 =>
    split
    case isTrue h2 =>
      dsimp only
      split
      case isTrue h3 =>
        simp only [Outcome.ok.injEq]
        constructor
        · intro he; exact ⟨h1, h2, h3, he.symm⟩
        · intro ⟨_, _, _, he⟩; exact he.symm
      case isFalse h3 =>
        constructor
        · intro he; cases he
        · intro ⟨_, _, h, _⟩; exact absurd h h3
    case isFalse h2 =>
      constructor
      · intro he; cases he
      · intro ⟨_, h, _, _⟩; exact absurd h h2
  case isFalse h1 =>
    constructor
    · intro he; cases he
    · intro ⟨h, _, _, _⟩; exact absurd h h1

theorem set_null_at_ok_iff (rw : RowWriter) (idx : Nat) (rw2 : RowWriter) :
    rw.set_null_at idx = Outcome.ok rw2 ↔
      (rw.layout.null_free = false ∧ rw.layout.null_width ≤ rw.data.length ∧
       idx / 8 < rw.data.length ∧
       rw2 = { rw with data := (rw.data.set (idx / 8)
                 (unsetBitInByte (byteAt rw.data (idx / 8)) (idx % 8))) }) := by
  unfold RowWriter.set_null_at
  split
  case isTrue h1 =>
    constructor
    · intro he; cases he
    · intro ⟨h, _, _, _⟩; rw [h1] at h; cases h
  case isFalse h1 =>
    split
    case isTrue h2 =>
      split
      case isTrue h3 =>
        simp only [Outcome.ok.injEq]
        constructor
        · intro he; exact ⟨Bool.eq_false_iff.mpr h1, h2, h3, he.symm⟩
        · intro ⟨_, _, _, he⟩; exact he.symm
      case isFalse h3 =>
        constructor
        · intro he; cases he
        · intro ⟨_, _, h, _⟩; exact absurd h h3
    case isFalse h2 =>
      constructor
      · intro he; cases he
      · intro ⟨_, h, _, _⟩; exact absurd h h2

theorem set_non_null_at_ok_iff (rw : RowWriter) (idx : Nat) (rw2 : RowWriter) :
    rw.set_non_null_at idx = Outcome.ok rw2 ↔
      (rw.layout.null_free = false ∧ rw.layout.null_width ≤ rw.data.length ∧
       idx / 8 < rw.data.length ∧
       rw2 = { rw with data := (rw.data.set (idx / 8)
                 (setBitInByte (byteAt rw.data (idx / 8)) (idx % 8))) }) := by
  unfold RowWriter.set_non_null_at
  split
  case isTrue h1 =>
    constructor
    · intro he; cases he
    · intro ⟨h, _, _, _⟩; rw [h1] at h; cases h
  case isFalse h1 =>
    split
    case isTrue h2 =>
      split
      case isTrue h3 =>
        simp only [Outcome.ok.injEq]
        constructor
        · intro he; exact ⟨Bool.eq_false_iff.mpr h1, h2, h3, he.symm⟩
        · intro ⟨_, _, _, he⟩; exact he.symm
      case isFalse h3 =>
        constructor
        · intro he; cases he
        · intro ⟨_, _, h, _⟩; exact absurd h h3
    case isFalse h2 =>
      constructor
      · intro he; cases he
      · intro ⟨_, h, _, _⟩; exact absurd h h2

/-! ## Characterization of `write_field` -/

/-- Value actually stored by the typed setter for a given declared type: the
identity except for booleans, which `set_bool` renormalizes to 0/1. -/
def convVal : DataType → Int → Int
  | .Boolean, v => if intToBool v then 1 else 0
  | _, v => v

/-- Whether the downcast performed by the writer routine for declared type
`dt` succeeds on a column of runtime type `ct`. -/
def ctypeOk : DataType → DataType → Bool
  | .Decimal128 _ _, ct => ct.isDecimal128
  | dt, ct => decide (ct = dt)

theorem guarded_set_ok_iff (P : Prop) [Decidable P] (msg : String) (w : Nat)
    (conv : Int → Int) (rw : RowWriter) (col : Column) (i r : Nat)
    (rw2 : RowWriter) :
    ((if P then
        (match col.valueAt r with
         | Outcome.ok v => rw.set_idx w i (conv v)
         | Outcome.panic m => Outcome.panic m
         | Outcome.ub => Outcome.ub)
      else Outcome.panic msg) = Outcome.ok rw2) ↔
      (P ∧ r < col.vals.length ∧ i < rw.layout.field_count ∧
       i < rw.layout.field_offsets.length ∧
       rw.layout.field_offsets.getD i 0 + w ≤ rw.data.length ∧
       rw2 = { rw with data := (writeBytes rw.data (rw.layout.field_offsets.getD i 0)
                 (leBytes w (conv (col.vals.getD r 0)))) }) := by
  split
  case isTrue hp =>
    cases hv : col.valueAt r with
    | ok v =>
      have hvv := (valueAt_ok_iff col r v).mp hv
      rw [set_idx_ok_iff]
      constructor
      · intro ⟨a, b, c, d⟩
        refine ⟨hp, hvv.1, a, b, c, ?_⟩
        rw [d, hvv.2]
      · intro ⟨_, _, a, b, c, d⟩
        refine ⟨a, b, c, ?_⟩
        rw [d, hvv.2]
    | panic m =>
      constructor
      · intro he; cases he
      · intro ⟨_, hr, _⟩
        have hok : col.valueAt r = Outcome.ok (col.vals.getD r 0) :=
          (valueAt_ok_iff _ _ _).mpr ⟨hr, rfl⟩
        rw [hv] at hok; cases hok
    | ub =>
      constructor
      · intro he; cases he
      · intro ⟨_, hr, _⟩
        have hok : col.valueAt r = Outcome.ok (col.vals.getD r 0) :=
          (valueAt_ok_iff _ _ _).mpr ⟨hr, rfl⟩
        rw [hv] at hok; cases hok
  case isFalse hp =>
    constructor
    · intro he; cases he
    · intro ⟨h, _⟩; exact absurd h hp

theorem write_field_ok_iff (i r : Nat) (col : Column) (dt : DataType)
    (rw rw2 : RowWriter) :
    write_field i r col dt rw = Outcome.ok rw2 ↔
      (dt.supported = true ∧ ctypeOk dt col.ctype = true ∧ r < col.vals.length ∧
       i < rw.layout.field_count ∧ i < rw.layout.field_offsets.length ∧
       rw.layout.field_offsets.getD i 0 + typeWidth dt ≤ rw.data.length ∧
       rw2 = { rw with data := (writeBytes rw.data (rw.layout.field_offsets.getD i 0)
                 (leBytes (typeWidth dt) (convVal dt (col.vals.getD r 0)))) }) := by
  cases dt
  case Utf8 =>
    constructor
    · intro he; cases he
    · intro ⟨h, _⟩; cases h
  case Boolean =>
    have h := guarded_set_ok_iff (col.ctype = DataType.Boolean) "downcast ref failed"
      1 (fun v => if intToBool v then 1 else 0) rw col i r rw2
    constructor
    · intro he
      obtain ⟨hc, h2, h3, h4, h5, h6⟩ := h.mp he
      exact ⟨rfl, decide_eq_true hc, h2, h3, h4, h5, h6⟩
    · intro ⟨_, hc, h2, h3, h4, h5, h6⟩
      exact h.mpr ⟨of_decide_eq_true hc, h2, h3, h4, h5, h6⟩
  case Date32 =>
    have h := guarded_set_ok_iff (col.ctype = DataType.Date32) "as_date32_array failed"
      4 (fun v => v) rw col i r rw2
    constructor
    · intro he
      obtain ⟨hc, h2, h3, h4, h5, h6⟩ := h.mp he
      exact ⟨rfl, decide_eq_true hc, h2, h3, h4, h5, h6⟩
    · intro ⟨_, hc, h2, h3, h4, h5, h6⟩
      exact h.mpr ⟨of_decide_eq_true hc, h2, h3, h4, h5, h6⟩
  case Date64 =>
    have h := guarded_set_ok_iff (col.ctype = DataType.Date64) "as_date64_array failed"
      8 (fun v => v) rw col i r rw2
    constructor
    · intro he
      obtain ⟨hc, h2, h3, h4, h5, h6⟩ := h.mp he
      exact ⟨rfl, decide_eq_true hc, h2, h3, h4, h5, h6⟩
    · intro ⟨_, hc, h2, h3, h4, h5, h6⟩
      exact h.mpr ⟨of_decide_eq_true hc, h2, h3, h4, h5, h6⟩
  case Decimal128 p s =>
    have h := guarded_set_ok_iff (col.ctype.isDecimal128 = true)
      "as_decimal128_array failed" 16 (fun v => v) rw col i r rw2
    constructor
    · intro he
      obtain ⟨hc, h2, h3, h4, h5, h6⟩ := h.mp he
      exact ⟨rfl, hc, h2, h3, h4, h5, h6⟩
    · intro ⟨_, hc, h2, h3, h4, h5, h6⟩
      exact h.mpr ⟨hc, h2, h3, h4, h5, h6⟩
  case UInt8 =>
    have h := guarded_set_ok_iff (col.ctype = DataType.UInt8) "downcast ref failed"
      1 (fun v => v) rw col i r rw2
    constructor
    · intro he
      obtain ⟨hc, h2, h3, h4, h5, h6⟩ := h.mp he
      exact ⟨rfl, decide_eq_true hc, h2, h3, h4, h5, h6⟩
    · intro ⟨_, hc, h2, h3, h4, h5, h6⟩
      exact h.mpr ⟨of_decide_eq_true hc, h2, h3, h4, h5, h6⟩
  case UInt16 =>
    have h := guarded_set_ok_iff (col.ctype = DataType.UInt16) "downcast ref failed"
      2 (fun v => v) rw col i r rw2
    constructor
    · intro he
      obtain ⟨hc, h2, h3, h4, h5, h6⟩ := h.mp he
      exact ⟨rfl, decide_eq_true hc, h2, h3, h4, h5, h6⟩
    · intro ⟨_, hc, h2, h3, h4, h5, h6⟩
      exact h.mpr ⟨of_decide_eq_true hc, h2, h3, h4, h5, h6⟩
  case UInt32 =>
    have h := guarded_set_ok_iff (col.ctype = DataType.UInt32) "downcast ref failed"
      4 (fun v => v) rw col i r rw2
    constructor
    · intro he
      obtain ⟨hc, h2, h3, h4, h5, h6⟩ := h.mp he
      exact ⟨rfl, decide_eq_true hc, h2, h3, h4, h5, h6⟩
    · intro ⟨_, hc, h2, h3, h4, h5, h6⟩
      exact h.mpr ⟨of_decide_eq_true hc, h2, h3, h4, h5, h6⟩
  case UInt64 =>
    have h := guarded_set_ok_iff (col.ctype = DataType.UInt64) "downcast ref failed"
      8 (fun v => v) rw col i r rw2
    constructor
    · intro he
      obtain ⟨hc, h2, h3, h4, h5, h6⟩ := h.mp he
      exact ⟨rfl, decide_eq_true hc, h2, h3, h4, h5, h6⟩
    · intro ⟨_, hc, h2, h3, h4, h5, h6⟩
      exact h.mpr ⟨of_decide_eq_true hc, h2, h3, h4, h5, h6⟩
  case Int8 =>
    have h := guarded_set_ok_iff (col.ctype = DataType.Int8) "downcast ref failed"
      1 (fun v => v) rw col i r rw2
    constructor
    · intro he
      obtain ⟨hc, h2, h3, h4, h5, h6⟩ := h.mp he
      exact ⟨rfl, decide_eq_true hc, h2, h3, h4, h5, h6⟩
    · intro ⟨_, hc, h2, h3, h4, h5, h6⟩
      exact h.mpr ⟨of_decide_eq_true hc, h2, h3, h4, h5, h6⟩
  case Int16 =>
    have h := guarded_set_ok_iff (col.ctype = DataType.Int16) "downcast ref failed"
      2 (fun v => v) rw col i r rw2
    constructor
    · intro he
      obtain ⟨hc, h2, h3, h4, h5, h6⟩ := h.mp he
      exact ⟨rfl, decide_eq_true hc, h2, h3, h4, h5, h6⟩
    · intro ⟨_, hc, h2, h3, h4, h5, h6⟩
      exact h.mpr ⟨of_decide_eq_true hc, h2, h3, h4, h5, h6⟩
  case Int32 =>
    have h := guarded_set_ok_iff (col.ctype = DataType.Int32) "downcast ref failed"
      4 (fun v => v) rw col i r rw2
    constructor
    · intro he
      obtain ⟨hc, h2, h3, h4, h5, h6⟩ := h.mp he
      exact ⟨rfl, decide_eq_true hc, h2, h3, h4, h5, h6⟩
    · intro ⟨_, hc, h2, h3, h4, h5, h6⟩
      exact h.mpr ⟨of_decide_eq_true hc, h2, h3, h4, h5, h6⟩
  case Int64 =>
    have h := guarded_set_ok_iff (col.ctype = DataType.Int64) "downcast ref failed"
      8 (fun v => v) rw col i r rw2
    constructor
    · intro he
      obtain ⟨hc, h2, h3, h4, h5, h6⟩ := h.mp he
      exact ⟨rfl, decide_eq_true hc, h2, h3, h4, h5, h6⟩
    · intro ⟨_, hc, h2, h3, h4, h5, h6⟩
      exact h.mpr ⟨of_decide_eq_true hc, h2, h3, h4, h5, h6⟩
  case Float32 =>
    have h := guarded_set_ok_iff (col.ctype = DataType.Float32) "downcast ref failed"
      4 (fun v => v) rw col i r rw2
    constructor
    · intro he
      obtain ⟨hc, h2, h3, h4, h5, h6⟩ := h.mp he
      exact ⟨rfl, decide_eq_true hc, h2, h3, h4, h5, h6⟩
    · intro ⟨_, hc, h2, h3, h4, h5, h6⟩
      exact h.mpr ⟨of_decide_eq_true hc, h2, h3, h4, h5, h6⟩
  case Float64 =>
    have h := guarded_set_ok_iff (col.ctype = DataType.Float64) "downcast ref failed"
      8 (fun v => v) rw col i r rw2
    constructor
    · intro he
      obtain ⟨hc, h2, h3, h4, h5, h6⟩ := h.mp he
      exact ⟨rfl, decide_eq_true hc, h2, h3, h4, h5, h6⟩
    · intro ⟨_, hc, h2, h3, h4, h5, h6⟩
      exact h.mpr ⟨of_decide_eq_true hc, h2, h3, h4, h5, h6⟩

/-! ## Preservation lemmas -/

theorem write_field_preserves (i r : Nat) (col : Column) (dt : DataType)
    (rw rw2 : RowWriter) (h : write_field i r col dt rw = Outcome.ok rw2) :
    rw2.layout = rw.layout ∧ rw2.row_width = rw.row_width ∧
      rw2.data.length = rw.data.length := by
  obtain ⟨_, _, _, _, _, _, h7⟩ := (write_field_ok_iff i r col dt rw rw2).mp h
  subst h7
  exact ⟨rfl, rfl, writeBytes_length _ _ _⟩

theorem set_null_at_preserves (rw rw2 : RowWriter) (idx : Nat)
    (h : rw.set_null_at idx = Outcome.ok rw2) :
    rw2.layout = rw.layout ∧ rw2.row_width = rw.row_width ∧
      rw2.data.length = rw.data.length := by
  obtain ⟨_, _, _, h4⟩ := (set_null_at_ok_iff rw idx rw2).mp h
  subst h4
  exact ⟨rfl, rfl, List.length_set _ _ _⟩

theorem set_non_null_at_preserves (rw rw2 : RowWriter) (idx : Nat)
    (h : rw.set_non_null_at idx = Outcome.ok rw2) :
    rw2.layout = rw.layout ∧ rw2.row_width = rw.row_width ∧
      rw2.data.length = rw.data.length := by
  obtain ⟨_, _, _, h4⟩ := (set_non_null_at_ok_iff rw idx rw2).mp h
  subst h4
  exact ⟨rfl, rfl, List.length_set _ _ _⟩

theorem loop_free_preserves (r : Nat) :
    ∀ (pairs : List ((Nat × ArrowField) × Column)) (rw rw2 : RowWriter),
    write_row_loop_free r pairs rw = Outcome.ok rw2 →
    rw2.layout = rw.layout ∧ rw2.row_width = rw.row_width ∧
      rw2.data.length = rw.data.length := by
  intro pairs
  induction pairs with
  | nil =>
    intro rw rw2 h
    injection h with h
    subst h
    exact ⟨rfl, rfl, rfl⟩
  | cons p rest ih =>
    intro rw rw2 h
    obtain ⟨⟨i, f⟩, col⟩ := p
    simp only [write_row_loop_free] at h
    cases hw : write_field i r col f.data_type rw with
    | ok rw1 =>
      rw [hw] at h
      have h1 := write_field_preserves i r col f.data_type rw rw1 hw
      have h2 := ih rw1 rw2 h
      exact ⟨h2.1.trans h1.1, h2.2.1.trans h1.2.1, h2.2.2.trans h1.2.2⟩
    | panic m => rw [hw] at h; cases h
    | ub => rw [hw] at h; cases h

theorem loop_nullable_preserves (r : Nat) :
    ∀ (pairs : List ((Nat × ArrowField) × Column)) (rw rw2 : RowWriter),
    write_row_loop_nullable r pairs rw = Outcome.ok rw2 →
    rw2.layout = rw.layout ∧ rw2.row_width = rw.row_width ∧
      rw2.data.length = rw.data.length := by
  intro pairs
  induction pairs with
  | nil =>
    intro rw rw2 h
    injection h with h
    subst h
    exact ⟨rfl, rfl, rfl⟩
  | cons p rest ih =>
    intro rw rw2 h
    obtain ⟨⟨i, f⟩, col⟩ := p
    simp only [write_row_loop_nullable] at h
    by_cases hn : col.is_null r
    · rw [if_neg (by simp [hn])] at h
      cases hs : rw.set_null_at i with
      | ok rw1 =>
        rw [hs] at h
        have h1 := set_null_at_preserves rw rw1 i hs
        have h2 := ih rw1 rw2 h
        exact ⟨h2.1.trans h1.1, h2.2.1.trans h1.2.1, h2.2.2.trans h1.2.2⟩
      | panic m => rw [hs] at h; cases h
      | ub => rw [hs] at h; cases h
    · rw [if_pos (by simp [hn])] at h
      cases hs : rw.set_non_null_at i with
      | ok rw1 =>
        simp only [hs] at h
        cases hw : write_field i r col f.data_type rw1 with
        | ok rwf =>
          simp only [hw] at h
          have h1 := set_non_null_at_preserves rw rw1 i hs
          have hf := write_field_preserves i r col f.data_type rw1 rwf hw
          have h2 := ih rwf rw2 h
          refine ⟨?_, ?_, ?_⟩
          · rw [h2.1, hf.1, h1.1]
          · rw [h2.2.1, hf.2.1, h1.2.1]
          · rw [h2.2.2, hf.2.2, h1.2.2]
        | panic m => simp only [hw] at h; cases h
        | ub => simp only [hw] at h; cases h
      | panic m => rw [hs] at h; cases h
      | ub => rw [hs] at h; cases h

theorem write_row_ok_elim (rw : RowWriter) (r : Nat) (S : Schema)
    (cols : List Column) (rw2 : RowWriter) (w : Nat)
    (h : write_row rw r S cols = Outcome.ok (rw2, w)) :
    (if rw.null_free then
       write_row_loop_free r ((S.fields.enum).zip cols) rw
     else
       write_row_loop_nullable r ((S.fields.enum).zip cols) rw) = Outcome.ok rw2 ∧
      w = rw2.row_width := by
  unfold write_row at h
  cases hl : (if rw.null_free then
       write_row_loop_free r ((S.fields.enum).zip cols) rw
     else
       write_row_loop_nullable r ((S.fields.enum).zip cols) rw) with
  | ok rw1 =>
    rw [hl] at h
    injection h with h
    have h1 : rw1 = rw2 := congrArg Prod.fst h
    have h2 : rw1.row_width = w := congrArg Prod.snd h
    subst h1
    exact ⟨rfl, h2.symm⟩
  | panic m => rw [hl] at h; cases h
  | ub => rw [hl] at h; cases h

theorem write_row_preserves (rw : RowWriter) (r : Nat) (S : Schema)
    (cols : List Column) (rw2 : RowWriter) (w : Nat)
    (h : write_row rw r S cols = Outcome.ok (rw2, w)) :
    rw2.layout = rw.layout ∧ rw2.row_width = rw.row_width ∧
      rw2.data.length = rw.data.length ∧ w = rw.row_width := by
  obtain ⟨hl, hw⟩ := write_row_ok_elim rw r S cols rw2 w h
  by_cases hnf : rw.null_free
  · rw [if_pos hnf] at hl
    have := loop_free_preserves r _ rw rw2 hl
    exact ⟨this.1, this.2.1, this.2.2, by rw [hw, this.2.1]⟩
  · rw [if_neg hnf] at hl
    have := loop_nullable_preserves r _ rw rw2 hl
    exact ⟨this.1, this.2.1, this.2.2, by rw [hw, this.2.1]⟩

/-- After a successful `write_row` from the fresh writer, `reset` restores
exactly the fresh writer. -/
theorem reset_eq_new (S : Schema) (rw : RowWriter) (h1 : rw.layout = RowLayout.new S)
    (h2 : rw.data.length = (RowLayout.new S).fixed_part_width) :
    rw.reset = RowWriter.new S := by
  unfold RowWriter.reset RowWriter.new
  rw [h1, h2]

theorem new_layout (S : Schema) : (RowWriter.new S).layout = RowLayout.new S := rfl

theorem new_data (S : Schema) :
    (RowWriter.new S).data = List.replicate (RowLayout.new S).fixed_part_width 0 := rfl

theorem new_row_width (S : Schema) :
    (RowWriter.new S).row_width = (RowLayout.new S).fixed_part_width := rfl

/-! ## The nullable-path loop specification -/

theorem getD_drop {α : Type} (l : List α) : ∀ (n m : Nat) (d : α),
    (l.drop n).getD m d = l.getD (n + m) d := by
  induction l with
  | nil => intro n m d; simp
  | cons x l ih =>
    intro n m d
    cases n with
    | zero => simp
    | succ n =>
      have h1 : n + 1 + m = (n + m) + 1 := by omega
      simp only [List.drop_succ_cons, ih n m d, h1, List.getD_cons_succ]

/-- Start offset of field `i` in the modelled layout. -/
def slotStart (S : Schema) (nf : Bool) (i : Nat) : Nat :=
  (RowLayout.withNullFree S nf).field_offsets.getD i 0

/-- Byte width of field `i` of the schema. -/
def slotWidth (S : Schema) (i : Nat) : Nat :=
  typeWidth ((S.fields.getD i dField).data_type)

/-- Bytes the field writer stores for field `i` of a row. -/
def slotPayload (S : Schema) (cols : List Column) (r i : Nat) : List Nat :=
  leBytes (slotWidth S i)
    (convVal ((S.fields.getD i dField).data_type) ((cols.getD i dColumn).vals.getD r 0))

theorem slotPayload_length (S : Schema) (cols : List Column) (r i : Nat) :
    (slotPayload S cols r i).length = slotWidth S i := by
  simp [slotPayload, leBytes_length]

theorem loop_nullable_spec (S : Schema) (cols : List Column) (r : Nat) :
    ∀ (fs : List ArrowField) (k : Nat) (rw rw2 : RowWriter),
    fs = S.fields.drop k →
    rw.layout = RowLayout.withNullFree S false →
    rw.data.length = (RowLayout.withNullFree S false).fixed_part_width →
    write_row_loop_nullable r ((List.enumFrom k fs).zip (cols.drop k)) rw =
      Outcome.ok rw2 →
    ((rw2.layout = rw.layout ∧ rw2.row_width = rw.row_width ∧
        rw2.data.length = rw.data.length) ∧
     (∀ b, b < 8 * (RowLayout.withNullFree S false).null_width →
        (b < k ∨ S.fields.length ≤ b ∨ cols.length ≤ b) →
        bitAt rw2.data b = bitAt rw.data b) ∧
     (∀ i, k ≤ i → i < S.fields.length → i < cols.length →
        bitAt rw2.data i = ! ((cols.getD i dColumn).is_null r)) ∧
     (∀ i, k ≤ i → i < S.fields.length → i < cols.length →
        (((cols.getD i dColumn).is_null r = true →
           ∀ j, slotStart S false i ≤ j → j < slotStart S false i + slotWidth S i →
             byteAt rw2.data j = byteAt rw.data j) ∧
         ((cols.getD i dColumn).is_null r = false →
           ∀ j, slotStart S false i ≤ j → j < slotStart S false i + slotWidth S i →
             byteAt rw2.data j =
               byteAt (slotPayload S cols r i) (j - slotStart S false i)))) ∧
     (∀ j, (RowLayout.withNullFree S false).null_width ≤ j →
        (∀ i, k ≤ i → i < S.fields.length → i < cols.length →
           j < slotStart S false i ∨ slotStart S false i + slotWidth S i ≤ j) →
        byteAt rw2.data j = byteAt rw.data j)) := by
  intro fs
  induction fs with
  | nil =>
    intro k rw rw2 hfs hL hlen h
    have hnil : (List.enumFrom k ([] : List ArrowField)).zip (cols.drop k) = [] := rfl
    rw [hnil] at h
    injection h with h
    subst h
    have hklen : S.fields.length ≤ k := by
      have hh := congrArg List.length hfs
      simp only [List.length_nil, List.length_drop] at hh
      omega
    refine ⟨⟨rfl, rfl, rfl⟩, ?_, ?_, ?_, ?_⟩
    · intro b _ _; rfl
    · intro i hki hif _; omega
    · intro i hki hif _; omega
    · intro j _ _; rfl
  | cons f fs ihf =>
    intro k rw rw2 hfs hL hlen h
    have hk : k < S.fields.length := by
      have hh := congrArg List.length hfs
      simp only [List.length_cons, List.length_drop] at hh
      omega
    have hfk : S.fields.getD k dField = f := by
      have h0 := getD_drop S.fields k 0 dField
      rw [← hfs] at h0
      simpa using h0.symm
    have hfs' : fs = S.fields.drop (k + 1) := by
      have hh := congrArg List.tail hfs
      simpa [List.tail_drop] using hh
    have hnw8 : S.fields.length ≤ 8 * (RowLayout.withNullFree S false).null_width :=
      layout_fc_le_bits S
    have hnwf : (RowLayout.withNullFree S false).null_width ≤
        (RowLayout.withNullFree S false).fixed_part_width := layout_nw_le_fixed S false
    have hoffk : (RowLayout.withNullFree S false).null_width ≤ slotStart S false k :=
      layout_offset_ge_nw S false k hk
    have hboundk : slotStart S false k + slotWidth S k ≤
        (RowLayout.withNullFree S false).fixed_part_width := by
      have hb := layout_slot_bound S false k hk
      simpa [slotStart, slotWidth] using hb
    have hdisj : ∀ i, k < i → i < S.fields.length →
        slotStart S false k + slotWidth S k ≤ slotStart S false i := by
      intro i h1 h2
      have hd := layout_slot_disjoint S false k i hk h2 h1
      simpa [slotStart, slotWidth] using hd
    have hoffi : ∀ i, i < S.fields.length →
        (RowLayout.withNullFree S false).null_width ≤ slotStart S false i := by
      intro i h1
      exact layout_offset_ge_nw S false i h1
    cases hcs : cols.drop k with
    | nil =>
      rw [hcs, List.zip_nil_right] at h
      injection h with h
      subst h
      have hclen : cols.length ≤ k := by
        have hh := congrArg List.length hcs
        simp only [List.length_nil, List.length_drop] at hh
        omega
      refine ⟨⟨rfl, rfl, rfl⟩, ?_, ?_, ?_, ?_⟩
      · intro b _ _; rfl
      · intro i hki _ hic; omega
      · intro i hki _ hic; omega
      · intro j _ _; rfl
    | cons c cs =>
      have hck : k < cols.length := by
        have hh := congrArg List.length hcs
        simp only [List.length_cons, List.length_drop] at hh
        omega
      have hcc : cols.getD k dColumn = c := by
        have h0 := getD_drop cols k 0 dColumn
        rw [hcs] at h0
        simpa using h0.symm
      have hcs' : cs = cols.drop (k + 1) := by
        have hh := congrArg List.tail hcs
        simpa [List.tail_drop] using hh.symm
      rw [hcs] at h
      have hzip : (List.enumFrom k (f :: fs)).zip (c :: cs) =
          ((k, f), c) :: (List.enumFrom (k + 1) fs).zip cs := rfl
      rw [hzip] at h
      simp only [write_row_loop_nullable] at h
      have hk8 : k / 8 < (RowLayout.withNullFree S false).null_width := by omega
      by_cases hn : c.is_null r
      · -- the column is null at this row: set_null_at, skip the writer
        rw [if_neg (by simp [hn])] at h
        cases hstep : rw.set_null_at k with
        | ok rw1 =>
          simp only [hstep] at h
          obtain ⟨hnf1, hnw1, hk81, hshape⟩ := (set_null_at_ok_iff rw k rw1).mp hstep
          have hd1 : rw1.data = rw.data.set (k / 8)
              (unsetBitInByte (byteAt rw.data (k / 8)) (k % 8)) := by rw [hshape]
          have hL1 : rw1.layout = RowLayout.withNullFree S false := by
            rw [hshape]; exact hL
          have hlen1 : rw1.data.length =
              (RowLayout.withNullFree S false).fixed_part_width := by
            rw [hd1, List.length_set]; exact hlen
          have hww1 : rw1.row_width = rw.row_width := by rw [hshape]
          rw [hcs'] at h
          obtain ⟨ihP, ihBitF, ihBitE, ihSlot, ihFrame⟩ :=
            ihf (k + 1) rw1 rw2 hfs' hL1 hlen1 h
          refine ⟨⟨?_, ?_, ?_⟩, ?_, ?_, ?_, ?_⟩
          · rw [ihP.1, hL1, hL]
          · rw [ihP.2.1, hww1]
          · rw [ihP.2.2, hd1, List.length_set]
          · -- bitmap frame
            intro b hb8 hbout
            have hbne : ¬ (b = k) := by omega
            rw [ihBitF b hb8 (by omega), hd1,
              bitAt_setNull rw.data k b hk81 (by omega), if_neg hbne]
          · -- bitmap establishment
            intro i hki hif hic
            by_cases hik : i = k
            · subst hik
              rw [ihBitF i (by omega) (Or.inl (by omega)), hd1,
                bitAt_setNull rw.data i i hk81 (by omega), if_pos rfl, hcc, hn]
              rfl
            · exact ihBitE i (by omega) hif hic
          · -- value slots
            intro i hki hif hic
            by_cases hik : i = k
            · subst hik
              constructor
              · intro _ j hj1 hj2
                have hfr : byteAt rw2.data j = byteAt rw1.data j := by
                  refine ihFrame j (by omega) ?_
                  intro q hq1 hq2 hq3
                  have hd := hdisj q (by omega) hq2
                  omega
                rw [hfr, hd1, byteAt_set, if_neg (by omega)]
              · intro hnn
                rw [hcc, hn] at hnn
                cases hnn
            · have islot := ihSlot i (by omega) hif hic
              have hoi := hoffi i hif
              constructor
              · intro hnull j hj1 hj2
                rw [islot.1 hnull j hj1 hj2, hd1, byteAt_set, if_neg (by omega)]
              · intro hnn j hj1 hj2
                exact islot.2 hnn j hj1 hj2
          · -- frame outside the bitmap and all remaining slots
            intro j hjnw hcond
            have h5 := ihFrame j hjnw (fun q hq1 hq2 hq3 => hcond q (by omega) hq2 hq3)
            rw [h5, hd1, byteAt_set, if_neg (by omega)]
        | panic m => simp only [hstep] at h; cases h
        | ub => simp only [hstep] at h; cases h
      · -- the column is non-null: set_non_null_at, then write the field
        rw [if_pos (by simp [hn])] at h
        cases hstep : rw.set_non_null_at k with
        | ok rw1 =>
          simp only [hstep] at h
          cases hwf : write_field k r c f.data_type rw1 with
          | ok rwf =>
            simp only [hwf] at h
            obtain ⟨hnf1, hnw1, hk81, hshape1⟩ :=
              (set_non_null_at_ok_iff rw k rw1).mp hstep
            have hd1 : rw1.data = rw.data.set (k / 8)
                (setBitInByte (byteAt rw.data (k / 8)) (k % 8)) := by rw [hshape1]
            have hL1 : rw1.layout = RowLayout.withNullFree S false := by
              rw [hshape1]; exact hL
            have hlen1 : rw1.data.length =
                (RowLayout.withNullFree S false).fixed_part_width := by
              rw [hd1, List.length_set]; exact hlen
            have hww1 : rw1.row_width = rw.row_width := by rw [hshape1]
            obtain ⟨hsup, hct, hrlen, hkfc, hkoff, hkbound, hshapef⟩ :=
              (write_field_ok_iff k r c f.data_type rw1 rwf).mp hwf
            have hdf : rwf.data = writeBytes rw1.data (slotStart S false k)
                (slotPayload S cols r k) := by
              rw [hshapef]
              simp only [slotStart, slotPayload, slotWidth, hfk, hcc, hL1]
            have hLf : rwf.layout = RowLayout.withNullFree S false := by
              rw [hshapef]; exact hL1
            have hlenf : rwf.data.length =
                (RowLayout.withNullFree S false).fixed_part_width := by
              rw [hdf, writeBytes_length]; exact hlen1
            have hwwf : rwf.row_width = rw.row_width := by
              rw [hshapef]; exact hww1
            rw [hcs'] at h
            obtain ⟨ihP, ihBitF, ihBitE, ihSlot, ihFrame⟩ :=
              ihf (k + 1) rwf rw2 hfs' hLf hlenf h
            have hwb : ∀ j, (j < slotStart S false k ∨
                slotStart S false k + slotWidth S k ≤ j) →
                byteAt rwf.data j = byteAt rw1.data j := by
              intro j hj
              rw [hdf, byteAt_writeBytes,
                if_neg (by rw [slotPayload_length]; omega)]
            refine ⟨⟨?_, ?_, ?_⟩, ?_, ?_, ?_, ?_⟩
            · rw [ihP.1, hLf, hL]
            · rw [ihP.2.1, hwwf]
            · rw [ihP.2.2, hdf, writeBytes_length, hd1, List.length_set]
            · -- bitmap frame
              intro b hb8 hbout
              have hbne : ¬ (b = k) := by omega
              have hbb : bitAt rwf.data b = bitAt rw1.data b := by
                unfold bitAt
                rw [hwb (b / 8) (Or.inl (by omega))]
              rw [ihBitF b hb8 (by omega), hbb, hd1,
                bitAt_setNonNull rw.data k b hk81, if_neg hbne]
            · -- bitmap establishment
              intro i hki hif hic
              by_cases hik : i = k
              · subst hik
                have hbb : bitAt rwf.data i = bitAt rw1.data i := by
                  unfold bitAt
                  rw [hwb (i / 8) (Or.inl (by omega))]
                rw [ihBitF i (by omega) (Or.inl (by omega)), hbb, hd1,
                  bitAt_setNonNull rw.data i i hk81, if_pos rfl, hcc,
                  Bool.eq_false_iff.mpr hn]
                rfl
              · exact ihBitE i (by omega) hif hic
            · -- value slots
              intro i hki hif hic
              by_cases hik : i = k
              · subst hik
                constructor
                · intro hnull
                  rw [hcc, Bool.eq_false_iff.mpr hn] at hnull
                  cases hnull
                · intro _ j hj1 hj2
                  have hfr : byteAt rw2.data j = byteAt rwf.data j := by
                    refine ihFrame j (by omega) ?_
                    intro q hq1 hq2 hq3
                    have hd := hdisj q (by omega) hq2
                    omega
                  rw [hfr, hdf, byteAt_writeBytes,
                    if_pos (by rw [slotPayload_length]; omega)]
              · have islot := ihSlot i (by omega) hif hic
                have hoi := hoffi i hif
                constructor
                · intro hnull j hj1 hj2
                  have hd := hdisj i (by omega) hif
                  rw [islot.1 hnull j hj1 hj2, hwb j (Or.inr (by omega)), hd1,
                    byteAt_set, if_neg (by omega)]
                · intro hnn j hj1 hj2
                  exact islot.2 hnn j hj1 hj2
            · -- frame outside the bitmap and all remaining slots
              intro j hjnw hcond
              have h5 := ihFrame j hjnw (fun q hq1 hq2 hq3 => hcond q (by omega) hq2 hq3)
              have hck0 := hcond k (Nat.le_refl k) hk hck
              rw [h5, hwb j hck0, hd1, byteAt_set, if_neg (by omega)]
          | panic m => simp only [hwf] at h; cases h
          | ub => simp only [hwf] at h; cases h
        | panic m => simp only [hstep] at h; cases h
        | ub => simp only [hstep] at h; cases h

/-! ## Parallel simulation of the null-free path by the nullable path -/

theorem nullFree_null_width (S : Schema) :
    (RowLayout.withNullFree S true).null_width = 0 := rfl

theorem slotStart_shift (S : Schema) (i : Nat) (h : i < S.fields.length) :
    slotStart S false i =
      (RowLayout.withNullFree S false).null_width + slotStart S true i := by
  unfold slotStart
  rw [layout_offsets_getD S false i h, layout_offsets_getD S true i h,
    nullFree_null_width]
  omega

theorem fixed_shift (S : Schema) :
    (RowLayout.withNullFree S false).fixed_part_width =
      (RowLayout.withNullFree S false).null_width +
        (RowLayout.withNullFree S true).fixed_part_width := by
  rw [(layout_facts S false).2.2, (layout_facts S true).2.2, nullFree_null_width]
  omega

theorem loop_parallel_spec (S : Schema) (cols : List Column) (r : Nat)
    (hAll : ∀ c ∈ cols, c.is_null r = false) :
    ∀ (fs : List ArrowField) (k : Nat) (rw0 rw1 rw0' : RowWriter),
    fs = S.fields.drop k →
    rw0.layout = RowLayout.withNullFree S true →
    rw1.layout = RowLayout.withNullFree S false →
    rw0.data.length = (RowLayout.withNullFree S true).fixed_part_width →
    rw1.data.length = (RowLayout.withNullFree S false).fixed_part_width →
    rw0.data = rw1.data.drop (RowLayout.withNullFree S false).null_width →
    write_row_loop_free r ((List.enumFrom k fs).zip (cols.drop k)) rw0 =
      Outcome.ok rw0' →
    ∃ rw1', write_row_loop_nullable r ((List.enumFrom k fs).zip (cols.drop k)) rw1 =
        Outcome.ok rw1' ∧
      rw0'.data = rw1'.data.drop (RowLayout.withNullFree S false).null_width ∧
      rw0'.layout = rw0.layout ∧ rw1'.layout = rw1.layout ∧
      rw0'.data.length = rw0.data.length ∧ rw1'.data.length = rw1.data.length ∧
      rw0'.row_width = rw0.row_width ∧ rw1'.row_width = rw1.row_width := by
  intro fs
  induction fs with
  | nil =>
    intro k rw0 rw1 rw0' hfs hL0 hL1 hlen0 hlen1 hdrop h
    have hnil : (List.enumFrom k ([] : List ArrowField)).zip (cols.drop k) = [] := rfl
    rw [hnil] at h
    injection h with h
    subst h
    exact ⟨rw1, rfl, hdrop, rfl, rfl, rfl, rfl, rfl, rfl⟩
  | cons f fs ihf =>
    intro k rw0 rw1 rw0' hfs hL0 hL1 hlen0 hlen1 hdrop h
    have hk : k < S.fields.length := by
      have hh := congrArg List.length hfs
      simp only [List.length_cons, List.length_drop] at hh
      omega
    have hfk : S.fields.getD k dField = f := by
      have h0 := getD_drop S.fields k 0 dField
      rw [← hfs] at h0
      simpa using h0.symm
    have hfs' : fs = S.fields.drop (k + 1) := by
      have hh := congrArg List.tail hfs
      simpa [List.tail_drop] using hh
    cases hcs : cols.drop k with
    | nil =>
      rw [hcs, List.zip_nil_right] at h
      injection h with h
      subst h
      refine ⟨rw1, ?_, hdrop, rfl, rfl, rfl, rfl, rfl, rfl⟩
      rw [List.zip_nil_right]
      rfl
    | cons c cs =>
      have hck : k < cols.length := by
        have hh := congrArg List.length hcs
        simp only [List.length_cons, List.length_drop] at hh
        omega
      have hcc : cols.getD k dColumn = c := by
        have h0 := getD_drop cols k 0 dColumn
        rw [hcs] at h0
        simpa using h0.symm
      have hcs' : cs = cols.drop (k + 1) := by
        have hh := congrArg List.tail hcs
        simpa [List.tail_drop] using hh.symm
      have hmem : c ∈ cols := by
        have hm : c ∈ cols.drop k := by rw [hcs]; exact List.mem_cons_self c cs
        exact List.mem_of_mem_drop hm
      have hnn : c.is_null r = false := hAll c hmem
      have hnw8 : S.fields.length ≤ 8 * (RowLayout.withNullFree S false).null_width :=
        layout_fc_le_bits S
      have hnwf : (RowLayout.withNullFree S false).null_width ≤
          (RowLayout.withNullFree S false).fixed_part_width := layout_nw_le_fixed S false
      rw [hcs] at h
      have hzip : (List.enumFrom k (f :: fs)).zip (c :: cs) =
          ((k, f), c) :: (List.enumFrom (k + 1) fs).zip cs := rfl
      rw [hzip] at h
      simp only [write_row_loop_free] at h
      cases hwf0 : write_field k r c f.data_type rw0 with
      | ok rwf0 =>
        simp only [hwf0] at h
        obtain ⟨hsup, hct, hrlen, hkfc, hkoff, hkbound, hshape0⟩ :=
          (write_field_ok_iff k r c f.data_type rw0 rwf0).mp hwf0
        -- the non-null bit write on the nullable side
        have hk8 : k / 8 < rw1.data.length := by
          rw [hlen1]; omega
        have hs1 : rw1.set_non_null_at k = Outcome.ok { rw1 with
            data := (rw1.data.set (k / 8)
              (setBitInByte (byteAt rw1.data (k / 8)) (k % 8))) } :=
          (set_non_null_at_ok_iff rw1 k _).mpr
            ⟨by rw [hL1]; rfl, by rw [hL1, hlen1]; omega, hk8, rfl⟩
        set rw1a : RowWriter := { rw1 with
            data := (rw1.data.set (k / 8)
              (setBitInByte (byteAt rw1.data (k / 8)) (k % 8))) }
        have hL1a : rw1a.layout = RowLayout.withNullFree S false := hL1
        have hlen1a : rw1a.data.length =
            (RowLayout.withNullFree S false).fixed_part_width := by
          show (rw1.data.set (k / 8) _).length = _
          rw [List.length_set]; exact hlen1
        have hdropa : rw0.data =
            rw1a.data.drop (RowLayout.withNullFree S false).null_width := by
          show rw0.data = (rw1.data.set (k / 8) _).drop _
          rw [drop_set_of_lt _ _ _ _ (by omega)]
          exact hdrop
        -- the field write on the nullable side
        have hoff0 : rw0.layout.field_offsets.getD k 0 = slotStart S true k := by
          rw [hL0]; rfl
        have hoff1 : rw1a.layout.field_offsets.getD k 0 = slotStart S false k := by
          rw [hL1a]; rfl
        have hshift := slotStart_shift S k hk
        have hs2 : write_field k r c f.data_type rw1a = Outcome.ok { rw1a with
            data := (writeBytes rw1a.data (rw1a.layout.field_offsets.getD k 0)
              (leBytes (typeWidth f.data_type)
                (convVal f.data_type (c.vals.getD r 0)))) } :=
          (write_field_ok_iff k r c f.data_type rw1a _).mpr
            ⟨hsup, hct, hrlen,
             by rw [hL1a]; show k < S.fields.length; exact hk,
             by rw [hL1a, (layout_facts S false).2.1]; exact hk,
             by
               rw [hoff1, hlen1a, hshift, fixed_shift]
               have hb : slotStart S true k + typeWidth f.data_type ≤
                   (RowLayout.withNullFree S true).fixed_part_width := by
                 rw [← hoff0]
                 rw [← hlen0]
                 exact hkbound
               omega,
             rfl⟩
        set rw1b : RowWriter := { rw1a with
            data := (writeBytes rw1a.data (rw1a.layout.field_offsets.getD k 0)
              (leBytes (typeWidth f.data_type)
                (convVal f.data_type (c.vals.getD r 0)))) }
        have hL1b : rw1b.layout = RowLayout.withNullFree S false := hL1a
        have hlen1b : rw1b.data.length =
            (RowLayout.withNullFree S false).fixed_part_width := by
          show (writeBytes rw1a.data _ _).length = _
          rw [writeBytes_length]; exact hlen1a
        have hdropb : rwf0.data =
            rw1b.data.drop (RowLayout.withNullFree S false).null_width := by
          rw [hshape0]
          show writeBytes rw0.data (rw0.layout.field_offsets.getD k 0) _ =
            (writeBytes rw1a.data (rw1a.layout.field_offsets.getD k 0) _).drop _
          rw [hoff0, hoff1, hshift, drop_writeBytes, ← hdropa]
        have hLf0 : rwf0.layout = RowLayout.withNullFree S true := by
          rw [hshape0]; exact hL0
        have hlenf0 : rwf0.data.length =
            (RowLayout.withNullFree S true).fixed_part_width := by
          rw [hshape0]
          show (writeBytes rw0.data _ _).length = _
          rw [writeBytes_length]; exact hlen0
        rw [hcs'] at h
        obtain ⟨rw1', hloop, hdrop', hlay0', hlay1', hl0', hl1', hw0', hw1'⟩ :=
          ihf (k + 1) rwf0 rw1b rw0' hfs' hLf0 hL1b hlenf0 hlen1b hdropb h
        refine ⟨rw1', ?_, hdrop', ?_, ?_, ?_, ?_, ?_, ?_⟩
        · rw [hzip]
          simp only [write_row_loop_nullable]
          rw [if_pos (by simp [hnn])]
          simp only [hs1]
          simp only [hs2]
          rw [hcs']
          exact hloop
        · rw [hlay0', hshape0]
        · rw [hlay1']
        · rw [hl0', hshape0]
          show (writeBytes rw0.data _ _).length = _
          rw [writeBytes_length]
        · rw [hl1']
          show (writeBytes rw1a.data _ _).length = _
          rw [writeBytes_length]
          show (rw1.data.set (k / 8) _).length = _
          rw [List.length_set]
        · rw [hw0', hshape0]
        · rw [hw1']
      | panic m => simp only [hwf0] at h; cases h
      | ub => simp only [hwf0] at h; cases h

/-! ## Batch loop and bench loop specifications -/

theorem get_row_length (rw : RowWriter) :
    rw.get_row.length = min rw.row_width rw.data.length := by
  simp [RowWriter.get_row]

theorem write_batch_loop_spec (S : Schema) (cols : List Column) :
    ∀ (count cur_row current_offset : Nat) (output out2 offs : List Nat),
    write_batch_loop (RowWriter.new S) output current_offset S cols cur_row count =
      Outcome.ok (out2, offs) →
    offs.length = count ∧ out2.length = output.length ∧
    (∀ j, j < current_offset → byteAt out2 j = byteAt output j) ∧
    (∀ m, m < offs.length → offs.getD m 0 =
       current_offset + m * (RowLayout.new S).fixed_part_width) ∧
    (∀ m, m < count → ∃ rwm,
       write_row (RowWriter.new S) (cur_row + m) S cols =
         Outcome.ok (rwm, (RowLayout.new S).fixed_part_width) ∧
       ∀ j, j < (RowLayout.new S).fixed_part_width →
         byteAt out2 (current_offset + m * (RowLayout.new S).fixed_part_width + j) =
           byteAt rwm.get_row j) := by
  intro count
  induction count with
  | zero =>
    intro cur_row current_offset output out2 offs h
    injection h with h
    have h1 : output = out2 := congrArg Prod.fst h
    have h2 : ([] : List Nat) = offs := congrArg Prod.snd h
    subst h1
    rw [← h2]
    refine ⟨rfl, rfl, fun j _ => rfl, ?_, ?_⟩
    · intro m hm; simp at hm
    · intro m hm; omega
  | succ n ih =>
    intro cur_row current_offset output out2 offs h
    simp only [write_batch_loop] at h
    cases hwr : write_row (RowWriter.new S) cur_row S cols with
    | ok rww =>
      simp only [hwr] at h
      have hpres := write_row_preserves (RowWriter.new S) cur_row S cols rww.1 rww.2
        (by rw [hwr])
      have hW : rww.2 = (RowLayout.new S).fixed_part_width := by
        rw [hpres.2.2.2, new_row_width]
      have hww : rww.1.row_width = (RowLayout.new S).fixed_part_width := by
        rw [hpres.2.1, new_row_width]
      have hdl : rww.1.data.length = (RowLayout.new S).fixed_part_width := by
        rw [hpres.2.2.1, new_data, List.length_replicate]
      have hgr : rww.1.get_row.length = rww.2 := by
        rw [get_row_length, hww, hdl, hW]
        omega
      by_cases hcap : current_offset + rww.2 ≤ output.length
      case neg =>
        rw [if_neg hcap] at h
        cases h
      rw [if_pos hcap] at h
      rw [if_pos hgr] at h
      cases hrec : write_batch_loop rww.1.reset
          (writeBytes output current_offset rww.1.get_row)
          (current_offset + rww.2) S cols (cur_row + 1) n with
      | ok res =>
        simp only [hrec] at h
        injection h with h
        have h1 : res.1 = out2 := congrArg Prod.fst h
        have h2 : current_offset :: res.2 = offs := congrArg Prod.snd h
        have hreset : rww.1.reset = RowWriter.new S :=
          reset_eq_new S rww.1 (by rw [hpres.1, new_layout]) hdl
        rw [hreset] at hrec
        obtain ⟨ihLen, ihOut, ihFrame, ihOffs, ihRows⟩ :=
          ih (cur_row + 1) (current_offset + rww.2)
            (writeBytes output current_offset rww.1.get_row) res.1 res.2 (by
              rw [hrec])
        subst h1
        rw [← h2]
        refine ⟨?_, ?_, ?_, ?_, ?_⟩
        · simp [ihLen]
        · rw [ihOut, writeBytes_length]
        · intro j hj
          rw [ihFrame j (by omega), byteAt_writeBytes, if_neg (by omega)]
        · intro m hm
          cases m with
          | zero => simp
          | succ m =>
            simp only [List.getD_cons_succ]
            rw [ihOffs m (by simpa using hm), hW, Nat.succ_mul]
            omega
        · intro m hm
          cases m with
          | zero =>
            refine ⟨rww.1, ?_, ?_⟩
            · simp only [Nat.add_zero]
              rw [hwr]
              have : rww = (rww.1, (RowLayout.new S).fixed_part_width) :=
                Prod.ext rfl hW
              rw [← this]
            · intro j hj
              have hjf : current_offset + 0 *
                  (RowLayout.new S).fixed_part_width + j =
                  current_offset + j := by omega
              rw [hjf, ihFrame (current_offset + j) (by omega),
                byteAt_writeBytes, if_pos (by rw [hgr, hW]; omega)]
              have : current_offset + j - current_offset = j := by omega
              rw [this]
          | succ m =>
            obtain ⟨rwm, hrowm, hbytesm⟩ := ihRows m (by omega)
            refine ⟨rwm, ?_, ?_⟩
            · have : cur_row + 1 + m = cur_row + (m + 1) := by omega
              rw [← this]
              exact hrowm
            · intro j hj
              have heq : current_offset + (m + 1) *
                  (RowLayout.new S).fixed_part_width + j =
                  current_offset + rww.2 + m *
                    (RowLayout.new S).fixed_part_width + j := by
                rw [hW, Nat.succ_mul]
                omega
              rw [heq]
              exact hbytesm j hj
      | panic m => simp only [hrec] at h; cases h
      | ub => simp only [hrec] at h; cases h
    | panic m => simp only [hwr] at h; cases h
    | ub => simp only [hwr] at h; cases h

theorem bench_rows_spec (S : Schema) (cols : List Column) :
    ∀ (count cur_row : Nat) (rwE : RowWriter) (ws : List Nat),
    bench_rows (RowWriter.new S) S cols cur_row count = Outcome.ok (rwE, ws) →
    rwE = RowWriter.new S ∧
      ws = List.replicate count (RowLayout.new S).fixed_part_width := by
  intro count
  induction count with
  | zero =>
    intro cur_row rwE ws h
    injection h with h
    exact ⟨(congrArg Prod.fst h).symm, (congrArg Prod.snd h).symm⟩
  | succ n ih =>
    intro cur_row rwE ws h
    simp only [bench_rows] at h
    cases hwr : write_row (RowWriter.new S) cur_row S cols with
    | ok rww =>
      simp only [hwr] at h
      have hpres := write_row_preserves (RowWriter.new S) cur_row S cols rww.1 rww.2
        (by rw [hwr])
      have hW : rww.2 = (RowLayout.new S).fixed_part_width := by
        rw [hpres.2.2.2, new_row_width]
      have hdl : rww.1.data.length = (RowLayout.new S).fixed_part_width := by
        rw [hpres.2.2.1, new_data, List.length_replicate]
      have hreset : rww.1.reset = RowWriter.new S :=
        reset_eq_new S rww.1 (by rw [hpres.1, new_layout]) hdl
      rw [hreset] at h
      cases hrec : bench_rows (RowWriter.new S) S cols (cur_row + 1) n with
      | ok res =>
        simp only [hrec] at h
        injection h with h
        obtain ⟨ih1, ih2⟩ := ih (cur_row + 1) res.1 res.2 (by rw [hrec])
        have hA : res.1 = rwE := congrArg Prod.fst h
        have hB : rww.2 :: res.2 = ws := congrArg Prod.snd h
        refine ⟨?_, ?_⟩
        · rw [← hA]
          exact ih1
        · rw [← hB, ih2, hW]
          rfl
      | panic m => simp only [hrec] at h; cases h
      | ub => simp only [hrec] at h; cases h
    | panic m => simp only [hwr] at h; cases h
    | ub => simp only [hwr] at h; cases h

theorem bench_batches_spec (S : Schema) :
    ∀ (bs : List RecordBatch) (rwE : RowWriter) (ws : List Nat),
    bench_batches (RowWriter.new S) S bs = Outcome.ok (rwE, ws) →
    rwE = RowWriter.new S ∧
      ws = List.replicate ((bs.map (fun b => b.num_rows)).sum)
        (RowLayout.new S).fixed_part_width := by
  intro bs
  induction bs with
  | nil =>
    intro rwE ws h
    injection h with h
    exact ⟨(congrArg Prod.fst h).symm, (congrArg Prod.snd h).symm⟩
  | cons b bs ih =>
    intro rwE ws h
    simp only [bench_batches] at h
    cases hr : bench_rows (RowWriter.new S) S b.columns 0 b.num_rows with
    | ok r1 =>
      simp only [hr] at h
      obtain ⟨hr1, hr2⟩ := bench_rows_spec S b.columns b.num_rows 0 r1.1 r1.2 (by
        rw [hr])
      rw [hr1] at h
      cases hb : bench_batches (RowWriter.new S) S bs with
      | ok r2 =>
        simp only [hb] at h
        injection h with h
        obtain ⟨ih1, ih2⟩ := ih r2.1 r2.2 (by rw [hb])
        have hA : r2.1 = rwE := congrArg Prod.fst h
        have hB : r1.2 ++ r2.2 = ws := congrArg Prod.snd h
        refine ⟨?_, ?_⟩
        · rw [← hA]
          exact ih1
        · rw [← hB, hr2, ih2, List.map_cons, List.sum_cons, List.replicate_add]
      | panic m => simp only [hb] at h; cases h
      | ub => simp only [hb] at h; cases h
    | panic m => simp only [hr] at h; cases h
    | ub => simp only [hr] at h; cases h

/-! ## Glue lemmas for the claim-level theorems -/

theorem new_eq_withNullFree_false (S : Schema)
    (h : (RowLayout.new S).null_free = false) :
    RowLayout.new S = RowLayout.withNullFree S false := by
  have hs : schemaNullFree S = false := h
  unfold RowLayout.new
  rw [hs]

theorem new_eq_withNullFree_true (S : Schema) (h : schemaNullFree S = true) :
    RowLayout.new S = RowLayout.withNullFree S true := by
  unfold RowLayout.new
  rw [h]

theorem get_row_eq_data (rw : RowWriter) (h : rw.row_width = rw.data.length) :
    rw.get_row = rw.data := by
  unfold RowWriter.get_row
  rw [h, List.take_length]

theorem getD_mem_of_lt {α : Type} (l : List α) (i : Nat) (d : α)
    (h : i < l.length) : l.getD i d ∈ l := by
  rw [List.getD_eq_get _ _ h]
  exact List.get_mem l i h

theorem drop_replicate_zero (n : Nat) : ∀ m : Nat,
    (List.replicate n (0 : Nat)).drop m = List.replicate (n - m) 0 := by
  induction n with
  | zero => intro m; simp
  | succ n ih =>
    intro m
    cases m with
    | zero => simp
    | succ m =>
      show (0 :: List.replicate n 0).drop (m + 1) = _
      simpa using ih m

theorem enumFrom_take {α : Type} : ∀ (l : List α) (k m : Nat),
    List.enumFrom k (l.take m) = (List.enumFrom k l).take m := by
  intro l
  induction l with
  | nil => intro k m; simp
  | cons x l ih =>
    intro k m
    cases m with
    | zero => simp
    | succ m =>
      show (k, x) :: List.enumFrom (k + 1) (l.take m) = _
      rw [ih (k + 1) m]
      rfl

theorem zip_take_self {α β : Type} : ∀ (l1 : List α) (l2 : List β),
    l1.zip l2 = (l1.take l2.length).zip l2 := by
  intro l1
  induction l1 with
  | nil => intro l2; simp
  | cons x l1 ih =>
    intro l2
    cases l2 with
    | nil => simp
    | cons y l2 =>
      show (x, y) :: l1.zip l2 = _
      rw [ih l2]
      rfl

/-- Fresh (or freshly reset) row writer over a given layout. -/
def freshWriter (L : RowLayout) : RowWriter :=
  { layout := L
    data := List.replicate L.fixed_part_width 0
    row_width := L.fixed_part_width }

/-! ## Concrete inputs used by the claim witnesses and counterexamples -/

/-- Concrete schema `[int32]`, non-nullable (null-free). -/
def sInt32 : Schema := { fields := [{ data_type := DataType.Int32, nullable := false }] }

/-- Concrete 3-value int32 column `[1, 2, 3]`. -/
def cInt32 : Column := { ctype := DataType.Int32, nulls := [false, false, false], vals := [1, 2, 3] }

/-- Concrete 3-row batch over `sInt32`. -/
def bInt32 : RecordBatch := { columns := [cInt32], num_rows := 3 }

/-- Expected output bytes of the section-8 concrete scenario. -/
def c1out : List Nat := [1, 0, 0, 0, 2, 0, 0, 0, 3, 0, 0, 0]

/-- Schema with no fields: its rows have width 0. -/
def sEmpty : Schema := { fields := [] }

/-- A 2-row batch with no columns (arrow permits this via row-count options). -/
def bEmpty : RecordBatch := { columns := [], num_rows := 2 }

/-- Concrete schema `[u8]`, null-free: one field, one-byte rows. -/
def sU8 : Schema := { fields := [{ data_type := DataType.UInt8, nullable := false }] }

/-- Concrete schema `[date32]`, non-nullable. -/
def sDate : Schema := { fields := [{ data_type := DataType.Date32, nullable := false }] }

/-- A column whose runtime type (int32) disagrees with a date32 schema. -/
def cMismatch : Column := { ctype := DataType.Int32, nulls := [false], vals := [0] }

/-- One-row batch holding the mismatched column. -/
def bMismatch : RecordBatch := { columns := [cMismatch], num_rows := 1 }

/-- Concrete schema `[nullable int32]` (not null-free; 1-byte bitmap). -/
def sNul : Schema := { fields := [{ data_type := DataType.Int32, nullable := true }] }

/-- An int32 column that is null at row 0 (with garbage 7 in the value buffer). -/
def cNul : Column := { ctype := DataType.Int32, nulls := [true], vals := [7] }

/-- An int32 column that is non-null 7 at row 0. -/
def cNN : Column := { ctype := DataType.Int32, nulls := [false], vals := [7] }

/-- Concrete schema with two nullable int32 fields. -/
def sPair : Schema := { fields :=
  [{ data_type := DataType.Int32, nullable := true },
   { data_type := DataType.Int32, nullable := true }] }

/-- Writer state after encoding row 0 of `[cNul]` against `sNul`. -/
def c2rw : RowWriter :=
  { layout := RowLayout.new sNul, data := [0, 0, 0, 0, 0], row_width := 5 }

/-- Writer state after encoding row 0 of `[cInt32]` against `sInt32`. -/
def c3rw : RowWriter :=
  { layout := RowLayout.new sInt32, data := [1, 0, 0, 0], row_width := 4 }

/-- Writer state after encoding row 0 of `[cNN]` against the two-field `sPair`
(only the first field is encoded; the zip truncates). -/
def c10rw : RowWriter :=
  { layout := RowLayout.new sPair, data := [1, 7, 0, 0, 0, 0, 0, 0, 0], row_width := 9 }

/-! ## Claim C8 -/

/-- C8: for the 3-row batch with null-free schema `[int32]` and values
`[1, 2, 3]`, `write_batch_unchecked` into a 12-byte zeroed output at offset 0
returns offsets `[0, 4, 8]` and writes the bytes
`01 00 00 00 02 00 00 00 03 00 00 00`. -/
theorem c8_concrete_scenario :
    write_batch_unchecked (List.replicate 12 0) 0 bInt32 0 sInt32 =
      Outcome.ok ([1, 0, 0, 0, 2, 0, 0, 0, 3, 0, 0, 0], [0, 4, 8]) := by
  decide

/-! ## Claim C7 -/

/-- C7: every typed setter (all of them route through `set_idx`, whose first
action is `assert_index_valid`) fails with the fatal index assertion when
`field_count ≤ idx`, before any byte is written (the panic outcome carries no
modified state); and `set_null_at` / `set_non_null_at` on a null-free layout
fail with their fatal assertions before touching the buffer.  Neither is a
recoverable error: the outcome is `Outcome.panic`, never an error value. -/
theorem c7_fatal_asserts :
    (∀ (rw : RowWriter) (w idx : Nat) (v : Int), rw.layout.field_count ≤ idx →
       rw.set_idx w idx v = Outcome.panic "assertion failed: idx < field_count") ∧
    (∀ (rw : RowWriter) (idx : Nat), rw.layout.null_free = true →
       rw.set_null_at idx =
           Outcome.panic "Unexpected call to set_null_at on null-free row writer" ∧
         rw.set_non_null_at idx =
           Outcome.panic "Unexpected call to set_non_null_at on null-free row writer") := by
  constructor
  · intro rw w idx v h
    unfold RowWriter.set_idx
    rw [if_neg (by omega)]
  · intro rw idx h
    constructor
    · unfold RowWriter.set_null_at
      rw [if_pos h]
    · unfold RowWriter.set_non_null_at
      rw [if_pos h]

/-- Witness for C7 at the null-free `[u8]` schema: index 3 on a 1-field
layout panics in `set_idx`, and both bitmap operations panic. -/
theorem c7_fatal_asserts_witness :
    ((RowWriter.new sU8).layout.field_count ≤ 3 ∧
      RowWriter.set_idx 8 (RowWriter.new sU8) 3 5 =
        Outcome.panic "assertion failed: idx < field_count") ∧
    ((RowWriter.new sU8).layout.null_free = true ∧
      (RowWriter.new sU8).set_null_at 0 =
          Outcome.panic "Unexpected call to set_null_at on null-free row writer" ∧
        (RowWriter.new sU8).set_non_null_at 0 =
          Outcome.panic "Unexpected call to set_non_null_at on null-free row writer") :=
  ⟨⟨by decide, c7_fatal_asserts.1 (RowWriter.new sU8) 8 3 5 (by decide)⟩,
   ⟨by decide, c7_fatal_asserts.2 (RowWriter.new sU8) 0 (by decide)⟩⟩

/-! ## Claim C9 -/

/-- C9: `set_null_at` and `set_non_null_at` perform no field-index
validation: their only assertion is that the layout is not null-free, and for
any index whose target byte is still inside the buffer allocation they
proceed to the raw bit operation and return normally, writing byte `idx / 8`;
when `8 * null_width ≤ idx` that byte lies at or beyond `null_width`, i.e.
outside the null-bitmap region, with no assertion failure. -/
theorem c9_no_index_check (rw : RowWriter) (idx : Nat)
    (hnf : rw.layout.null_free = false)
    (hnw : rw.layout.null_width ≤ rw.data.length)
    (hin : idx / 8 < rw.data.length) :
    (rw.set_null_at idx = Outcome.ok { rw with data := (rw.data.set (idx / 8)
        (unsetBitInByte (byteAt rw.data (idx / 8)) (idx % 8))) }) ∧
    (rw.set_non_null_at idx = Outcome.ok { rw with data := (rw.data.set (idx / 8)
        (setBitInByte (byteAt rw.data (idx / 8)) (idx % 8))) }) ∧
    (8 * rw.layout.null_width ≤ idx → rw.layout.null_width ≤ idx / 8) :=
  ⟨(set_null_at_ok_iff _ _ _).mpr ⟨hnf, hnw, hin, rfl⟩,
   (set_non_null_at_ok_iff _ _ _).mpr ⟨hnf, hnw, hin, rfl⟩,
   fun h => by omega⟩

/-- Witness for C9: on the nullable `[int32]` schema (1-byte bitmap, 5-byte
rows), index 32 targets byte 4, outside the bitmap, with no assertion. -/
theorem c9_no_index_check_witness :
    ((RowWriter.new sNul).layout.null_free = false ∧
     (RowWriter.new sNul).layout.null_width ≤ (RowWriter.new sNul).data.length ∧
     32 / 8 < (RowWriter.new sNul).data.length) ∧
    (8 * (RowWriter.new sNul).layout.null_width ≤ 32 →
      (RowWriter.new sNul).layout.null_width ≤ 32 / 8) :=
  ⟨⟨by decide, by decide, by decide⟩,
   (c9_no_index_check (RowWriter.new sNul) 32 (by decide) (by decide)
     (by decide)).2.2⟩

/-! ## Claim C3 -/

/-- C3: whenever `write_row` from the fresh writer returns, it returns
exactly the layout's `fixed_part_width`, and `get_row` afterwards has exactly
that length, for any schema, any columns, and any row index, regardless of
the field values and of which fields are null. -/
theorem c3_fixed_width (S : Schema) (r : Nat) (cols : List Column)
    (rw2 : RowWriter) (w : Nat)
    (h : write_row (RowWriter.new S) r S cols = Outcome.ok (rw2, w)) :
    w = (RowLayout.new S).fixed_part_width ∧
    rw2.get_row.length = (RowLayout.new S).fixed_part_width := by
  have hp := write_row_preserves (RowWriter.new S) r S cols rw2 w h
  constructor
  · rw [hp.2.2.2, new_row_width]
  · rw [get_row_length, hp.2.1, hp.2.2.1, new_row_width, new_data,
      List.length_replicate]
    omega

/-- Witness for C3 at the `[int32]` schema, encoding the value 1. -/
theorem c3_fixed_width_witness :
    (write_row (RowWriter.new sInt32) 0 sInt32 [cInt32] = Outcome.ok (c3rw, 4)) ∧
    (4 = (RowLayout.new sInt32).fixed_part_width ∧
     c3rw.get_row.length = (RowLayout.new sInt32).fixed_part_width) :=
  ⟨by decide, c3_fixed_width sInt32 0 [cInt32] c3rw 4 (by decide)⟩

/-! ## Claim C5 (corrected) -/

/-- C5 as stated is false: the typed setters write `sizeof(T)` bytes at the
field's offset with no check that the field's slot is that wide, so calling a
wide setter on a valid index of a narrower layout panics on the slice bounds
instead of writing.  Here `set_u64` on field 0 of the one-byte `[u8]` layout:
the index is valid (`0 < field_count = 1`), yet the call panics. -/
theorem c5_counterexample :
    0 < (RowWriter.new sU8).layout.field_count ∧
    RowWriter.set_u64 (RowWriter.new sU8) 0 5 =
      Outcome.panic "slice index out of range" := by
  exact ⟨by decide, by decide⟩

/-- C5 (amended): for every supported type `T` (all typed setters are
`set_idx` at width `typeWidth T`; `set_bool`, `set_u8` and `set_i8` are the
width-1 instances) and every field index `idx < field_count`, provided the
slot fits — `field_offsets[idx] + sizeof(T) ≤` buffer length, which holds
whenever `T` is the field's declared type — the setter succeeds and writes
exactly the little-endian bytes of the value into
`[field_offsets[idx], field_offsets[idx] + sizeof(T))`, leaving every other
byte of the buffer, including the null bitmap and all other fields' slots,
unchanged (and leaving `row_width` and the layout unchanged). -/
theorem c5_setter_writes_le_bytes (dt : DataType) (rw : RowWriter) (idx : Nat)
    (v : Int)
    (hsup : dt.supported = true)
    (hidx : idx < rw.layout.field_count)
    (hoff : idx < rw.layout.field_offsets.length)
    (hfit : rw.layout.field_offsets.getD idx 0 + typeWidth dt ≤ rw.data.length) :
    ∃ rw2, rw.set_idx (typeWidth dt) idx v = Outcome.ok rw2 ∧
      rw2.layout = rw.layout ∧ rw2.row_width = rw.row_width ∧
      rw2.data.length = rw.data.length ∧
      (∀ j, rw.layout.field_offsets.getD idx 0 ≤ j →
         j < rw.layout.field_offsets.getD idx 0 + typeWidth dt →
         byteAt rw2.data j = byteAt (leBytes (typeWidth dt) v)
           (j - rw.layout.field_offsets.getD idx 0)) ∧
      (∀ j, j < rw.layout.field_offsets.getD idx 0 ∨
         rw.layout.field_offsets.getD idx 0 + typeWidth dt ≤ j →
         byteAt rw2.data j = byteAt rw.data j) := by
  refine ⟨_, (set_idx_ok_iff rw (typeWidth dt) idx v _).mpr ⟨hidx, hoff, hfit, rfl⟩,
    rfl, rfl, ?_, ?_, ?_⟩
  · show (writeBytes rw.data _ _).length = rw.data.length
    exact writeBytes_length _ _ _
  · intro j hj1 hj2
    show byteAt (writeBytes rw.data _ _) j = _
    rw [byteAt_writeBytes, if_pos (by rw [leBytes_length]; omega)]
  · intro j hj
    show byteAt (writeBytes rw.data _ _) j = _
    rw [byteAt_writeBytes, if_neg (by rw [leBytes_length]; omega)]

/-- Witness for C5 at the `[int32]` layout: `set_i32` (width 4) on field 0. -/
theorem c5_setter_writes_le_bytes_witness :
    (DataType.supported DataType.Int32 = true ∧
     0 < (RowWriter.new sInt32).layout.field_count ∧
     0 < (RowWriter.new sInt32).layout.field_offsets.length ∧
     (RowWriter.new sInt32).layout.field_offsets.getD 0 0 + typeWidth DataType.Int32 ≤
       (RowWriter.new sInt32).data.length) ∧
    (∃ rw2, (RowWriter.new sInt32).set_idx (typeWidth DataType.Int32) 0 7 =
        Outcome.ok rw2 ∧
      rw2.layout = (RowWriter.new sInt32).layout ∧
      rw2.row_width = (RowWriter.new sInt32).row_width ∧
      rw2.data.length = (RowWriter.new sInt32).data.length ∧
      (∀ j, (RowWriter.new sInt32).layout.field_offsets.getD 0 0 ≤ j →
         j < (RowWriter.new sInt32).layout.field_offsets.getD 0 0 +
           typeWidth DataType.Int32 →
         byteAt rw2.data j = byteAt (leBytes (typeWidth DataType.Int32) 7)
           (j - (RowWriter.new sInt32).layout.field_offsets.getD 0 0)) ∧
      (∀ j, j < (RowWriter.new sInt32).layout.field_offsets.getD 0 0 ∨
         (RowWriter.new sInt32).layout.field_offsets.getD 0 0 +
           typeWidth DataType.Int32 ≤ j →
         byteAt rw2.data j = byteAt (RowWriter.new sInt32).data j)) :=
  ⟨⟨by decide, by decide, by decide, by decide⟩,
   c5_setter_writes_le_bytes DataType.Int32 (RowWriter.new sInt32) 0 7
     (by decide) (by decide) (by decide) (by decide)⟩

/-! ## Claim C6 (corrected) -/

/-- C6 as stated is false: a date32 column whose runtime type disagrees with
the declared schema type does not surface as a recoverable error result —
`write_field_date32` converts the downcast error into a fatal panic, so
`bench_write_batch` aborts instead of returning `Err`. -/
theorem c6_counterexample :
    bench_write_batch [[bMismatch]] sDate =
      Outcome.panic "as_date32_array failed" := by
  rfl

/-- C6 (amended): when `bench_write_batch` returns at all, its `Result` is
always `Ok` with the ordered sequence of per-row widths, one per row across
all batches in order (each equal to the schema's `fixed_part_width`); a
date/decimal runtime type mismatch aborts fatally (panic) during encoding
and never produces the recoverable error result. -/
theorem c6_bench_widths (batches : List (List RecordBatch)) (S : Schema)
    (e : Except String (List Nat))
    (h : bench_write_batch batches S = Outcome.ok e) :
    e = Except.ok (List.replicate
      ((batches.flatten.map (fun b => b.num_rows)).sum)
      (RowLayout.new S).fixed_part_width) := by
  unfold bench_write_batch at h
  cases hb : bench_batches (RowWriter.new S) S batches.flatten with
  | ok r =>
    simp only [hb] at h
    injection h with h
    obtain ⟨_, h2⟩ := bench_batches_spec S batches.flatten r.1 r.2 (by rw [hb])
    rw [← h, h2]
  | panic m => simp only [hb] at h; cases h
  | ub => simp only [hb] at h; cases h

/-- Witness for C6 at the 3-row `[int32]` batch: the result is `Ok [4,4,4]`. -/
theorem c6_bench_widths_witness :
    (bench_write_batch [[bInt32]] sInt32 = Outcome.ok (Except.ok [4, 4, 4])) ∧
    ((Except.ok [4, 4, 4] : Except String (List Nat)) = Except.ok (List.replicate
      ((([[bInt32]] : List (List RecordBatch)).flatten.map (fun b => b.num_rows)).sum)
      (RowLayout.new sInt32).fixed_part_width)) :=
  ⟨by rfl, c6_bench_widths [[bInt32]] sInt32 (Except.ok [4, 4, 4]) (by rfl)⟩

/-! ## Claim C2 -/

/-- C2: for a schema whose layout is not null-free, after `write_row` on the
freshly-reset writer with a full column slice, for each field `i` the
null-bitmap bit `i` of the output row is 1 iff column `i` is not null at the
encoded row index, and when column `i` is null, every byte of field `i`'s
value slot `[slotStart, slotStart + slotWidth)` in the output row is zero. -/
theorem c2_null_bitmap (S : Schema) (cols : List Column) (r : Nat)
    (rw2 : RowWriter) (w : Nat)
    (hnf : (RowLayout.new S).null_free = false)
    (hlen : cols.length = S.fields.length)
    (h : write_row (RowWriter.new S) r S cols = Outcome.ok (rw2, w)) :
    ∀ i, i < S.fields.length →
      (bitAt rw2.get_row i = ! ((cols.getD i dColumn).is_null r)) ∧
      ((cols.getD i dColumn).is_null r = true →
        ∀ j, slotStart S false i ≤ j → j < slotStart S false i + slotWidth S i →
          byteAt rw2.get_row j = 0) := by
  have hW := new_eq_withNullFree_false S hnf
  obtain ⟨hl, hw⟩ := write_row_ok_elim (RowWriter.new S) r S cols rw2 w h
  rw [if_neg (by simp [RowWriter.null_free, new_layout, hnf])] at hl
  have hpres := loop_nullable_preserves r _ _ _ hl
  have hgr : rw2.get_row = rw2.data := get_row_eq_data rw2 (by
    rw [hpres.2.1, hpres.2.2, new_row_width, new_data, List.length_replicate])
  obtain ⟨_, _, ihBitE, ihSlot, _⟩ := loop_nullable_spec S cols r S.fields 0
    (RowWriter.new S) rw2 (by rw [List.drop_zero])
    (by rw [new_layout, hW])
    (by rw [new_data, List.length_replicate, hW])
    hl
  intro i hi
  constructor
  · rw [hgr]
    exact ihBitE i (by omega) hi (by omega)
  · intro hnull j hj1 hj2
    rw [hgr, (ihSlot i (by omega) hi (by omega)).1 hnull j hj1 hj2,
      new_data, byteAt_replicate]

/-- Witness for C2 at the nullable `[int32]` schema with a null column:
bitmap bit 0 of the encoded row is 0. -/
theorem c2_null_bitmap_witness :
    ((RowLayout.new sNul).null_free = false ∧ [cNul].length = sNul.fields.length ∧
     write_row (RowWriter.new sNul) 0 sNul [cNul] = Outcome.ok (c2rw, 5)) ∧
    bitAt c2rw.get_row 0 = ! (([cNul].getD 0 dColumn).is_null 0) :=
  ⟨⟨by decide, by decide, by decide⟩,
   (c2_null_bitmap sNul [cNul] 0 c2rw 5 (by decide) (by decide) (by decide) 0
     (by decide)).1⟩

/-! ## Claim C10 -/

/-- C10: `write_row` iterates the zip of the enumerated schema fields with
the column slice, so when the column slice is shorter than the field list,
encoding is identical to encoding against the schema truncated to the first
`cols.length` fields — only those fields are encoded and no error is raised —
and on the nullable path the remaining fields' bitmap bits stay 0, exactly as
if those fields were null. -/
theorem c10_zip_truncation (S : Schema) (cols : List Column) (r : Nat)
    (hshort : cols.length < S.fields.length) :
    (∀ rw, write_row rw r S cols =
       write_row rw r { fields := S.fields.take cols.length } cols) ∧
    ((RowLayout.new S).null_free = false →
      ∀ rw2 w, write_row (RowWriter.new S) r S cols = Outcome.ok (rw2, w) →
        ∀ i, cols.length ≤ i → i < S.fields.length →
          bitAt rw2.get_row i = false) := by
  constructor
  · intro rw
    have hz : (S.fields.enum).zip cols =
        (({ fields := S.fields.take cols.length } : Schema).fields.enum).zip cols := by
      show (S.fields.enum).zip cols = ((S.fields.take cols.length).enum).zip cols
      rw [zip_take_self (S.fields.enum) cols]
      congr 1
      exact (enumFrom_take S.fields 0 cols.length).symm
    unfold write_row
    rw [hz]
  · intro hnf rw2 w h
    have hW := new_eq_withNullFree_false S hnf
    obtain ⟨hl, _⟩ := write_row_ok_elim (RowWriter.new S) r S cols rw2 w h
    rw [if_neg (by simp [RowWriter.null_free, new_layout, hnf])] at hl
    have hpres := loop_nullable_preserves r _ _ _ hl
    have hgr : rw2.get_row = rw2.data := get_row_eq_data rw2 (by
      rw [hpres.2.1, hpres.2.2, new_row_width, new_data, List.length_replicate])
    obtain ⟨_, ihBitF, _, _, _⟩ := loop_nullable_spec S cols r S.fields 0
      (RowWriter.new S) rw2 (by rw [List.drop_zero]) (by rw [new_layout, hW])
      (by rw [new_data, List.length_replicate, hW]) hl
    intro i hi1 hi2
    have hnw8 : S.fields.length ≤ 8 * (RowLayout.withNullFree S false).null_width :=
      layout_fc_le_bits S
    rw [hgr, ihBitF i (by omega) (by omega), new_data, bitAt_replicate_zero]

/-- Witness for C10: two nullable int32 fields, one column; bit 1 stays 0. -/
theorem c10_zip_truncation_witness :
    ([cNN].length < sPair.fields.length) ∧
    ((RowLayout.new sPair).null_free = false) ∧
    (write_row (RowWriter.new sPair) 0 sPair [cNN] = Outcome.ok (c10rw, 9)) ∧
    bitAt c10rw.get_row 1 = false :=
  ⟨by decide, by decide, by decide,
   (c10_zip_truncation sPair [cNN] 0 (by decide)).2 (by decide) c10rw 9
     (by decide) 1 (by decide) (by decide)⟩

/-! ## Claim C1 (corrected) -/

/-- Specification of the offsets returned by `write_batch_unchecked`: one
offset per encoded row, the first equal to the start offset, characterized as
`offset + m * fixed_part_width`, consecutive offsets separated by exactly
that row's width (every row's width is `fixed_part_width`), nondecreasing and
strictly increasing whenever the fixed width is positive, and the output
bytes at each returned offset equal the bytes produced by encoding that row
alone into a freshly-reset `RowWriter`. -/
def batchOffsetsOk (offset : Nat) (batch : RecordBatch) (row_idx : Nat)
    (S : Schema) (out2 offs : List Nat) : Prop :=
  offs.length = batch.num_rows - row_idx ∧
  (0 < offs.length → offs.getD 0 0 = offset) ∧
  (∀ m, m < offs.length →
     offs.getD m 0 = offset + m * (RowLayout.new S).fixed_part_width) ∧
  (∀ m, m + 1 < offs.length →
     offs.getD (m + 1) 0 = offs.getD m 0 + (RowLayout.new S).fixed_part_width) ∧
  (∀ m1 m2, m1 < m2 → m2 < offs.length → offs.getD m1 0 ≤ offs.getD m2 0) ∧
  (0 < (RowLayout.new S).fixed_part_width →
     ∀ m1 m2, m1 < m2 → m2 < offs.length → offs.getD m1 0 < offs.getD m2 0) ∧
  (∀ m, m < offs.length → ∃ rwm,
     write_row (RowWriter.new S) (row_idx + m) S batch.columns =
       Outcome.ok (rwm, (RowLayout.new S).fixed_part_width) ∧
     ∀ j, j < (RowLayout.new S).fixed_part_width →
       byteAt out2 (offs.getD m 0 + j) = byteAt rwm.get_row j)

/-- C1 as stated is false: the offsets need not be strictly increasing.  A
schema with no fields has `fixed_part_width = 0`, so a 2-row batch yields the
offsets `[0, 0]`, whose consecutive pair is not increasing (each pair is
still separated by exactly that row's width, which is 0). -/
theorem c1_counterexample :
    write_batch_unchecked [] 0 bEmpty 0 sEmpty = Outcome.ok ([], [0, 0]) ∧
    ¬ ([0, 0].getD 0 0 < [0, 0].getD 1 0) := by
  exact ⟨by decide, by decide⟩

/-- C1 (amended): for every batch, start offset, and `row_idx ≤ num_rows`,
when `write_batch_unchecked` returns, it returns exactly
`num_rows - row_idx` start offsets in input row order, the first equal to
`offset`, each consecutive pair separated by exactly that row's width,
nondecreasing — strictly increasing whenever `fixed_part_width` is positive,
which holds for every schema with at least one field — and for every
returned offset the bytes of the output at `[offset, offset + row width)`
equal the bytes produced by encoding that row alone into a freshly-reset
`RowWriter`. -/
theorem c1_batch_offsets (output : List Nat) (offset : Nat)
    (batch : RecordBatch) (row_idx : Nat) (S : Schema) (out2 offs : List Nat)
    (hrange : row_idx ≤ batch.num_rows)
    (h : write_batch_unchecked output offset batch row_idx S =
      Outcome.ok (out2, offs)) :
    batchOffsetsOk offset batch row_idx S out2 offs := by
  obtain ⟨hLen, hOut, hFrame, hOffs, hRows⟩ := write_batch_loop_spec S batch.columns
    (batch.num_rows - row_idx) row_idx offset output out2 offs h
  refine ⟨hLen, ?_, hOffs, ?_, ?_, ?_, ?_⟩
  · intro h0
    rw [hOffs 0 h0]
    omega
  · intro m hm
    rw [hOffs (m + 1) hm, hOffs m (by omega), Nat.succ_mul]
    omega
  · intro m1 m2 h12 hm2
    rw [hOffs m1 (by omega), hOffs m2 hm2]
    have := Nat.mul_le_mul_right (RowLayout.new S).fixed_part_width
      (Nat.le_of_lt h12)
    omega
  · intro hWpos m1 m2 h12 hm2
    rw [hOffs m1 (by omega), hOffs m2 hm2]
    have := Nat.mul_lt_mul_of_pos_right h12 hWpos
    omega
  · intro m hm
    obtain ⟨rwm, hr, hb⟩ := hRows m (by omega)
    refine ⟨rwm, hr, ?_⟩
    intro j hj
    rw [hOffs m hm]
    exact hb j hj

/-- Witness for the amended C1 at the section-8 concrete scenario. -/
theorem c1_batch_offsets_witness :
    (0 ≤ bInt32.num_rows) ∧
    (write_batch_unchecked (List.replicate 12 0) 0 bInt32 0 sInt32 =
       Outcome.ok (c1out, [0, 4, 8])) ∧
    batchOffsetsOk 0 bInt32 0 sInt32 c1out [0, 4, 8] :=
  ⟨by decide, by decide,
   c1_batch_offsets (List.replicate 12 0) 0 bInt32 0 sInt32 c1out [0, 4, 8]
     (by decide) (by decide)⟩

/-! ## Claim C4 -/

/-- C4: for a schema marked null-free and a row whose columns hold only
non-null values, the null-free branch taken by `write_row` on the fresh
writer produces value bytes identical, at each field's offset, to the bytes
the nullable branch produces for the same row on a fresh writer over the
forced-nullable layout: the nullable output is the null-free output prefixed
by the bitmap region (dropping `null_width` bytes of the nullable output
yields exactly the null-free output), each field's slot holds identical
bytes at its respective offset, and the bitmap bits of all fields are 1. -/
theorem c4_null_free_equiv (S : Schema) (cols : List Column) (r : Nat)
    (rw0 : RowWriter) (w0 : Nat)
    (hnf : schemaNullFree S = true)
    (hnonnull : ∀ c ∈ cols, c.is_null r = false)
    (h : write_row (RowWriter.new S) r S cols = Outcome.ok (rw0, w0)) :
    ∃ rw1 w1,
      write_row (freshWriter (RowLayout.withNullFree S false)) r S cols =
        Outcome.ok (rw1, w1) ∧
      rw0.get_row =
        rw1.get_row.drop (RowLayout.withNullFree S false).null_width ∧
      (∀ i, i < S.fields.length → ∀ j, j < slotWidth S i →
        byteAt rw0.get_row (slotStart S true i + j) =
          byteAt rw1.get_row (slotStart S false i + j)) ∧
      (∀ i, i < S.fields.length → i < cols.length →
        bitAt rw1.get_row i = true) := by
  have hWt := new_eq_withNullFree_true S hnf
  obtain ⟨hl, hw⟩ := write_row_ok_elim (RowWriter.new S) r S cols rw0 w0 h
  rw [if_pos (by
    show (RowWriter.new S).layout.null_free = true
    rw [new_layout, hWt]
    rfl)] at hl
  obtain ⟨rw1, hloop, hdrop, hlay0, hlay1, hl0, hl1, hw0, hw1⟩ :=
    loop_parallel_spec S cols r hnonnull S.fields 0 (RowWriter.new S)
      (freshWriter (RowLayout.withNullFree S false)) rw0
      (by rw [List.drop_zero])
      (by rw [new_layout, hWt])
      rfl
      (by rw [new_data, List.length_replicate, hWt])
      (by show (List.replicate _ (0 : Nat)).length = _; rw [List.length_replicate])
      (by
        show (RowWriter.new S).data =
          (List.replicate (RowLayout.withNullFree S false).fixed_part_width 0).drop _
        rw [new_data, hWt, drop_replicate_zero]
        congr 1
        have := fixed_shift S
        omega)
      hl
  have hnfree : (freshWriter (RowLayout.withNullFree S false)).null_free = false := rfl
  have hloop' : write_row_loop_nullable r ((S.fields.enum).zip cols)
      (freshWriter (RowLayout.withNullFree S false)) = Outcome.ok rw1 := hloop
  have hwr1 : write_row (freshWriter (RowLayout.withNullFree S false)) r S cols =
      Outcome.ok (rw1, rw1.row_width) := by
    unfold write_row
    rw [if_neg (by rw [hnfree]; simp)]
    simp only [hloop']
  have hfree := loop_free_preserves r _ _ _ hl
  have hg0 : rw0.get_row = rw0.data := get_row_eq_data rw0 (by
    rw [hfree.2.1, hfree.2.2, new_row_width, new_data, List.length_replicate])
  have hg1 : rw1.get_row = rw1.data := get_row_eq_data rw1 (by
    rw [hw1, hl1]
    show (RowLayout.withNullFree S false).fixed_part_width =
      (List.replicate (RowLayout.withNullFree S false).fixed_part_width (0 : Nat)).length
    rw [List.length_replicate])
  refine ⟨rw1, rw1.row_width, hwr1, ?_, ?_, ?_⟩
  · rw [hg0, hg1]
    exact hdrop
  · intro i hi j hj
    rw [hg0, hg1, hdrop, byteAt_drop, slotStart_shift S i hi]
    congr 1
    omega
  · obtain ⟨_, _, ihBitE, _, _⟩ := loop_nullable_spec S cols r S.fields 0
      (freshWriter (RowLayout.withNullFree S false)) rw1
      (by rw [List.drop_zero]) rfl
      (by
        show (List.replicate (RowLayout.withNullFree S false).fixed_part_width
          (0 : Nat)).length = _
        rw [List.length_replicate])
      hloop
    intro i hi hic
    rw [hg1, ihBitE i (by omega) hi hic,
      hnonnull _ (getD_mem_of_lt cols i dColumn hic)]
    rfl

/-- Witness for C4 at the null-free `[int32]` schema, a non-null column. -/
theorem c4_null_free_equiv_witness :
    (schemaNullFree sInt32 = true ∧
     (∀ c ∈ [cInt32], c.is_null 0 = false) ∧
     write_row (RowWriter.new sInt32) 0 sInt32 [cInt32] =
       Outcome.ok (c3rw, 4)) ∧  -- hypothesis side
    (∃ rw1 w1,
      write_row (freshWriter (RowLayout.withNullFree sInt32 false)) 0 sInt32
          [cInt32] = Outcome.ok (rw1, w1) ∧
      c3rw.get_row =
        rw1.get_row.drop (RowLayout.withNullFree sInt32 false).null_width ∧
      (∀ i, i < sInt32.fields.length → ∀ j, j < slotWidth sInt32 i →
        byteAt c3rw.get_row (slotStart sInt32 true i + j) =
          byteAt rw1.get_row (slotStart sInt32 false i + j)) ∧
      (∀ i, i < sInt32.fields.length → i < [cInt32].length →
        bitAt rw1.get_row i = true)) :=
  ⟨⟨by decide, by decide, by decide⟩,
   c4_null_free_equiv sInt32 [cInt32] 0 c3rw 4 (by decide) (by decide)
     (by decide)⟩
